import Mathlib

/-!
# Tab switcher (`src/main.js`): catalog construction and key-driven selection

A shallow embedding of the `TabSwitcher` class of `src/main.js`.

* Host objects (workspace leaves, their views, files) are records of the
  properties the code reads.  A leaf is referred to by a `Handle`; the host maps
  handles to leaf objects, so `===` on leaves is equality of handles.
* A property that holds a string or is missing is an `Option String`
  (`none` is `undefined`/`null`); `truthy` is JavaScript truthiness.
* A host method the code calls through a `typeof ... === 'function'` test or an
  optional call is a `Call`: absent, raising, or returning a value.
* An exception escaping `getTabs` is `none`; `getTabInfo` returns `none` for
  the `null` produced by its outer `catch`.
* `Array.prototype.sort` is a builtin of the language; it is modelled as a
  stable insertion sort driven by the comparator of lines 399-421.  The
  theorems on the sorted catalog use that the sort permutes the array; the one
  on the recency order is proved of this insertion sort.
* `String.prototype.localeCompare` depends on the host locale and is a field of
  the host.
* DOM presentation (`renderTabBar` item construction, `scrollToActiveTab`,
  `updateScrollIndicators`, the deferred focus callback) reads the switcher
  state but never writes the fields modelled here, and is left out.
-/

namespace TabSwitch

/-! ## Host objects -/

/-- Identity of a workspace leaf object. -/
abbrev Handle := Nat

/-- Outcome of calling an optional host method. -/
inductive Call (α : Type) where
  | absent : Call α
  | throws : Call α
  | returns : α → Call α
  deriving DecidableEq

/-- JavaScript truthiness of a possibly missing string. -/
def truthy : Option String → Bool
  | some s => s != ""
  | none => false

/-- String conversion used by concatenation and template literals. -/
def jsStr (o : Option String) : String := o.getD "undefined"

/-- A file of the vault: `basename`, `path`, `stat.mtime`. -/
structure TFile where
  basename : String
  path : String
  mtime : Option Nat
  deriving DecidableEq

/-- The properties of `leaf.view` read by the code. -/
structure View where
  /-- Method `view.getViewType`. -/
  getViewType : Call (Option String)
  /-- Property `view.viewType`. -/
  viewType : Option String
  /-- Property `view.file`. -/
  file : Option TFile
  /-- Truthiness of `view.navigation`. -/
  navigation : Bool
  /-- Value of `view.constructor.name`; `none` when `view.constructor` is undefined, so that
  reading `.name` raises. -/
  constructorName : Option String
  /-- Value of `view.data && view.data.file`. -/
  dataFile : Option TFile
  /-- Value of `view.editor && view.editor.file`. -/
  editorFile : Option TFile
  /-- Truthiness of `view.app`. -/
  hasApp : Bool
  /-- Property `view.url`. -/
  url : Option String
  /-- Property `view.src`. -/
  src : Option String
  /-- Value of `view.iframe && view.iframe.src`. -/
  iframeSrc : Option String
  /-- Value of `view.frame && view.frame.src`. -/
  frameSrc : Option String
  /-- Value of `view.webview && view.webview.src`. -/
  webviewSrc : Option String
  /-- The `src` of each `iframe` under `view.containerEl`; `none` without a `containerEl`. -/
  containerIframes : Option (List (Option String))
  /-- Method `view.getDisplayText`. -/
  getDisplayText : Call (Option String)
  /-- Property `view.title`. -/
  title : Option String
  /-- Property `view.name`. -/
  name : Option String
  /-- Property `view.id`. -/
  id : Option String

/-- The properties of a workspace leaf read by the code. -/
structure Leaf where
  /-- Method `leaf.getViewType`. -/
  getViewType : Call (Option String)
  /-- Property `leaf.view`. -/
  view : Option View
  /-- Method `leaf.getDisplayText`. -/
  getDisplayText : Call (Option String)
  /-- Property `leaf.id`. -/
  id : Option String

/-- A `.workspace-tab-header` element of the document, as seen by lines 196-261. -/
structure TabHeader where
  /-- Text of the `.workspace-tab-header-inner-title` child. -/
  title : Option String
  /-- The `leaf` of the closest `.workspace-tab-container`. -/
  containerLeaf : Option Handle
  /-- The `leaf` of the closest `.workspace-leaf`. -/
  workspaceLeaf : Option Handle
  /-- The `leaf` property of the header itself. -/
  headerLeaf : Option Handle

/-- The host application as `getTabs` observes it (`this.app.workspace` and the document). -/
structure Host where
  /-- The leaf object behind each handle. -/
  leaf : Handle → Leaf
  /-- Query `workspace.getLeavesOfType(type)`; `none` when the query raises. -/
  getLeavesOfType : String → Option (List Handle)
  /-- The leaves `workspace.iterateLeaves` passes to its callback. -/
  iterateLeaves : List Handle
  /-- The leaves `workspace.iterateAllLeaves` passes to its callback; `none` when the host has
  no such method. -/
  iterateAllLeaves : Option (List Handle)
  /-- Result of `document.querySelectorAll('.workspace-tab-header')`. -/
  tabHeaders : List TabHeader
  /-- Property `workspace.activeLeaf`. -/
  activeLeaf : Option Handle
  /-- Method `workspace.getLastOpenFiles`. -/
  getLastOpenFiles : Call (List String)
  /-- Method `workspace.getActiveFile`. -/
  getActiveFile : Call (Option TFile)
  /-- Builtin `a.localeCompare(b)` under the host locale. -/
  localeCompare : String → String → Int
  /-- Text of `Date.now() + '_' + Math.random().toString(36).substr(2, 9)`. -/
  entropy : String

/-! ## Tab descriptors and classification (`getTabInfo`, lines 464-664) -/

/-- The `type` tag of a tab descriptor. -/
inductive TabType where
  | file
  | web
  | other
  deriving DecidableEq

/-- The object literal returned by `getTabInfo`. -/
structure TabInfo where
  leaf : Handle
  file : Option TFile
  title : String
  path : String
  type : TabType
  deriving DecidableEq

/-- The test `!viewType || viewType === 'unknown'`. -/
def unresolved (vt : Option String) : Bool :=
  !truthy vt || vt == some "unknown"

/-- Lines 467-504: the view type, tried through four sources in turn. -/
def resolveViewType (l : Leaf) : Option String :=
  let vt0 : Option String :=
    match l.getViewType with
    | .returns v => v
    | _ => some "unknown"
  let vt1 : Option String :=
    if unresolved vt0 then
      match l.view with
      | some v =>
        match v.getViewType with
        | .returns x => x
        | _ => vt0
      | none => vt0
    else vt0
  let vt2 : Option String :=
    if unresolved vt1 then
      match l.view with
      | some v => if truthy v.viewType then v.viewType else vt1
      | none => vt1
    else vt1
  if unresolved vt2 then
    match l.view with
    | some v =>
      if v.file.isSome then some "markdown"
      else if v.navigation then some "special"
      else vt2
    | none => vt2
  else vt2

/-- The descriptor built at lines 519-525 and 548-554. -/
def fileTab (lf : Handle) (f : TFile) : TabInfo :=
  { leaf := lf
    file := some f
    title := if f.basename = "" then "Untitled" else f.basename
    path := f.path
    type := TabType.file }

/-- Lines 531-558: the file reached through the secondary accessors.  `none` when none is
found or when an access raises, which the inner `catch` absorbs. -/
def alternateFile (h : Host) (lf : Handle) : Option TFile :=
  match (h.leaf lf).view with
  | none => none
  | some v =>
    match v.dataFile with
    | some f => some f
    | none =>
      match v.editorFile with
      | some f => some f
      | none =>
        if v.hasApp && h.activeLeaf == some lf then
          match h.getActiveFile with
          | .returns f => f
          | _ => none
        else none

/-- Lines 564-594: `(isWebViewer, webUrl)`. -/
def webProbe (v : View) : Bool × Option String :=
  if truthy v.url then (true, v.url)
  else if truthy v.src then (true, v.src)
  else if truthy v.iframeSrc then (true, v.iframeSrc)
  else if truthy v.frameSrc then (true, v.frameSrc)
  else if truthy v.webviewSrc then (true, v.webviewSrc)
  else
    match v.containerIframes with
    | some (f :: _) => (true, if truthy f then f else some "iframe://embedded")
    | _ => (false, none)

/-- The list `webViewTypes` of line 597. -/
def knownWebViewTypes : List String :=
  ["web-view", "webview", "browser-view", "custom-frames", "iframe", "web-browser"]

/-- Line 598: the test `webViewTypes.includes(viewType)`. -/
def isKnownWebViewType (vt : Option String) : Bool :=
  match vt with
  | some s => decide (s ∈ knownWebViewTypes)
  | none => false

/-- Lines 600-608: `webTitle`; the outer `none` is a raising call. -/
def webTitle (l : Leaf) (v : View) : Option (Option String) :=
  match v.getDisplayText with
  | .returns t => some t
  | .throws => none
  | .absent =>
    match l.getDisplayText with
    | .returns t => some t
    | .throws => none
    | .absent =>
      if truthy v.title then some v.title
      else if truthy v.name then some v.name
      else some none

/-- Lines 562-626: the web descriptor of a leaf with view `v`.  The outer `none` is an
exception, `some none` means the leaf is not a web viewer. -/
def webTab (lf : Handle) (l : Leaf) (v : View) (vt : Option String) :
    Option (Option TabInfo) :=
  let p := webProbe v
  if p.1 || isKnownWebViewType vt then
    match webTitle l v with
    | none => none
    | some wt =>
      let webUrl : String := if truthy p.2 then jsStr p.2 else jsStr vt ++ "://internal"
      some (some
        { leaf := lf
          file := none
          title := if truthy wt then jsStr wt else "Web Page"
          path := webUrl
          type := TabType.web })
  else some none

/-- Lines 628-659: the descriptor of any other leaf; `none` is an exception. -/
def otherTab (h : Host) (lf : Handle) (l : Leaf) (vt : Option String) : Option TabInfo :=
  let titleR : Option (Option String) :=
    match l.view with
    | some v =>
      match v.getDisplayText with
      | .returns t => some t
      | .throws => none
      | .absent =>
        match l.getDisplayText with
        | .returns t => some t
        | .throws => none
        | .absent => some (if truthy vt && vt != some "unknown" then vt else some "Unknown")
    | none =>
      match l.getDisplayText with
      | .returns t => some t
      | .throws => none
      | .absent => some (if truthy vt && vt != some "unknown" then vt else some "Unknown")
  match titleR with
  | none => none
  | some title =>
    let viewId : Option String :=
      match l.view with
      | some v => v.id
      | none => none
    let uniqueId : String :=
      if truthy viewId then jsStr viewId
      else if truthy l.id then jsStr l.id
      else jsStr title ++ "_" ++ h.entropy
    some
      { leaf := lf
        file := none
        title := if truthy title then jsStr title else "Unknown"
        path := (if truthy vt then jsStr vt else "unknown") ++ ":" ++ uniqueId
        type := TabType.other }

/-- Method `getTabInfo(leaf)` (lines 464-664).  `none` is the `null` of the outer `catch`. -/
def getTabInfo (h : Host) (lf : Handle) : Option TabInfo :=
  let l := h.leaf lf
  let vt := resolveViewType l
  match l.view with
  | none =>
    -- no view: not a file tab; the markdown branch raises inside its own `try`
    otherTab h lf l vt
  | some v =>
    match v.file with
    | some f => some (fileTab lf f)
    | none =>
      -- line 529: `viewType === 'markdown' || leaf.view.constructor.name === 'MarkdownView'`
      let md : Option Bool :=
        if vt == some "markdown" then some true
        else
          match v.constructorName with
          | none => none
          | some n => some (n == "MarkdownView")
      match md with
      | none => none
      | some isMd =>
        match (if isMd then alternateFile h lf else none) with
        | some f => some (fileTab lf f)
        | none =>
          match webTab lf l v vt with
          | none => none
          | some (some t) => some t
          | some none => otherTab h lf l vt

/-! ## Enumeration of the open leaves (`getTabs`, lines 111-327) -/

/-- The expression `leaf.view?.getDisplayText?.() || leaf.getDisplayText?.()` evaluated by the
log statements and by the title search; the outer `none` is a raising call. -/
def displayText (l : Leaf) : Option (Option String) :=
  let first : Option (Option String) :=
    match l.view with
    | none => some none
    | some v =>
      match v.getDisplayText with
      | .absent => some none
      | .throws => none
      | .returns t => some t
  match first with
  | none => none
  | some t =>
    if truthy t then some t
    else
      match l.getDisplayText with
      | .absent => some none
      | .throws => none
      | .returns u => some u

/-- Evaluation of `leaf.getViewType?.()` followed by the display text, as done by the log
statements of lines 267, 289 and 292-297: `false` when one of the calls raises. -/
def probe (l : Leaf) : Bool :=
  match l.getViewType with
  | .throws => false
  | _ => (displayText l).isSome

/-- The view types queried at lines 115-121. -/
def baseTypes : List String :=
  ["markdown", "pdf", "image", "video", "audio", "canvas", "excalidraw"]

/-- The list `webViewTypes` of lines 124-128. -/
def webViewTypes : List String :=
  ["web-view", "webview", "browser-view", "custom-frames", "iframe", "web-browser",
   "surfing-view", "browser", "webpage", "site", "external-link", "url-view",
   "web", "http", "https"]

/-- Lines 115-121: the concatenated by-type queries; a raising query is not caught. -/
def typedLeaves (h : Host) : Option (List Handle) :=
  (baseTypes.mapM h.getLeavesOfType).map List.flatten

/-- Lines 130-141: the web-viewer queries, each inside its own `try`. -/
def webViewLeaves (h : Host) : List Handle :=
  webViewTypes.foldl
    (fun acc ty =>
      match h.getLeavesOfType ty with
      | some typeLeaves => if typeLeaves.length > 0 then acc ++ typeLeaves else acc
      | none => acc)
    []

/-- Lines 151-176: `allLeaves`, from `iterateLeaves` and, when that yields nothing, from
`iterateAllLeaves`. -/
def allLeaves (h : Host) : List Handle :=
  let viaIterate := h.iterateLeaves.filter (fun x => (h.leaf x).view.isSome)
  if viaIterate.length = 0 then
    match h.iterateAllLeaves with
    | some ls => ls.filter (fun x => (h.leaf x).view.isSome)
    | none => viaIterate
  else viaIterate

/-- Lines 237-240: `allWorkspaceLeaves.find(...)` by display title; the outer `none` is a
raising call met before a match. -/
def findByTitle (h : Host) (title : String) : List Handle → Option (Option Handle)
  | [] => some none
  | x :: xs =>
    match displayText (h.leaf x) with
    | none => none
    | some t =>
      if (if truthy t then jsStr t else "") = title then some (some x)
      else findByTitle h title xs

/-- Lines 204-245: the leaf behind a tab header, by the four lookups in turn. -/
def domLeaf (h : Host) (hd : TabHeader) : Option (Option Handle) :=
  match hd.containerLeaf with
  | some d => some (some d)
  | none =>
    match hd.workspaceLeaf with
    | some d => some (some d)
    | none =>
      match hd.headerLeaf with
      | some d => some (some d)
      | none =>
        findByTitle h (if truthy hd.title then jsStr hd.title else "Unknown")
          (h.iterateAllLeaves.getD h.iterateLeaves)

/-- Lines 196-261, one header: push its leaf when it is new and has a view.  Whatever raises
is absorbed by the `catch` of line 258 and the header is skipped. -/
def addDomLeaf (h : Host) (leaves : List Handle) (hd : TabHeader) : List Handle :=
  match domLeaf h hd with
  | some (some d) =>
    match (h.leaf d).getViewType with
    | .throws => leaves
    | _ => if !leaves.contains d && (h.leaf d).view.isSome then leaves ++ [d] else leaves
  | _ => leaves

/-- Lines 264-269: push the leaves of `allLeaves` that are missing; the log statement of
line 267 is outside any `try`. -/
def mergeLeaves (h : Host) : List Handle → List Handle → Option (List Handle)
  | leaves, [] => some leaves
  | leaves, x :: xs =>
    if leaves.contains x then mergeLeaves h leaves xs
    else if probe (h.leaf x) then mergeLeaves h (leaves ++ [x]) xs
    else none

/-- Lines 115-269: the array `leaves`; `none` when an exception escapes. -/
def collectLeaves (h : Host) : Option (List Handle) :=
  match typedLeaves h with
  | none => none
  | some typed =>
    mergeLeaves h (h.tabHeaders.foldl (addDomLeaf h) (typed ++ webViewLeaves h)) (allLeaves h)

/-- Lines 278-285: `recentFiles`. -/
def recentFiles (h : Host) : List String :=
  match h.getLastOpenFiles with
  | .returns l => l
  | _ => []

/-! ## Filtering, deduplication and ordering (`getTabs`, lines 330-425) -/

/-- Lines 330-342: `allTabs`, the candidate descriptors. -/
def allTabs (h : Host) (leaves : List Handle) : List TabInfo :=
  ((leaves.filter (fun lf => some lf != h.activeLeaf)).filterMap (getTabInfo h)).filter
    (fun tab => tab.type = TabType.file || tab.type = TabType.web)

/-- The locals `uniqueTabs`, `seenLeaves`, `seenTitles` of lines 349-351.  The `Map` is an
association list searched from the front, so `set` is a prepend. -/
structure Dedup where
  uniqueTabs : List TabInfo
  seenLeaves : List Handle
  seenTitles : List (String × TabInfo)

/-- Lines 371-376 and 379-384: overwrite the slot of `existingTab`.  `indexOf` is by object
identity in the source; descriptors kept in `uniqueTabs` have pairwise distinct leaves, so
comparing their content finds the same slot. -/
def replaceExisting (st : Dedup) (existingTab tab : TabInfo) : Dedup :=
  let existingIndex := st.uniqueTabs.indexOf existingTab
  if existingIndex < st.uniqueTabs.length then
    { st with
      uniqueTabs := st.uniqueTabs.set existingIndex tab
      seenTitles := (tab.title, tab) :: st.seenTitles }
  else st

/-- Body of the `forEach` of lines 353-394. -/
def dedupStep (st : Dedup) (tab : TabInfo) : Dedup :=
  if st.seenLeaves.contains tab.leaf then st
  else
    let st1 : Dedup := { st with seenLeaves := tab.leaf :: st.seenLeaves }
    match st.seenTitles.lookup tab.title with
    | some existingTab =>
      if tab.type = TabType.file && existingTab.type != TabType.file then
        replaceExisting st1 existingTab tab
      else if tab.type = TabType.web && existingTab.type != TabType.file
          && existingTab.type != TabType.web then
        replaceExisting st1 existingTab tab
      else st1
    | none =>
      { st1 with
        uniqueTabs := st1.uniqueTabs ++ [tab]
        seenTitles := (tab.title, tab) :: st1.seenTitles }

/-- Lines 349-394: `uniqueTabs` after the deduplication loop. -/
def dedup (tabs : List TabInfo) : List TabInfo :=
  (tabs.foldl dedupStep { uniqueTabs := [], seenLeaves := [], seenTitles := [] }).uniqueTabs

/-- The value of `recentFiles.indexOf(path)`: the first position, or `-1`. -/
def recentIndex (recent : List String) (path : String) : Int :=
  if path ∈ recent then (recent.indexOf path : Int) else -1

/-- The expression `tab.file?.stat?.mtime || 0`. -/
def mtimeOf (t : TabInfo) : Int :=
  match t.file with
  | some f => (f.mtime.getD 0 : Nat)
  | none => 0

/-- The comparator of lines 399-421. -/
def compareTabs (h : Host) (recent : List String) (a b : TabInfo) : Int :=
  let aRecentIndex := recentIndex recent a.path
  let bRecentIndex := recentIndex recent b.path
  if aRecentIndex ≠ -1 ∧ bRecentIndex ≠ -1 then aRecentIndex - bRecentIndex
  else if aRecentIndex ≠ -1 ∧ bRecentIndex = -1 then -1
  else if aRecentIndex = -1 ∧ bRecentIndex ≠ -1 then 1
  else if a.type = TabType.file ∧ b.type = TabType.file then mtimeOf b - mtimeOf a
  else h.localeCompare a.title b.title

/-- Insert `x` after every element it does not precede. -/
def insertSorted {α : Type} (cmp : α → α → Int) (x : α) : List α → List α
  | [] => [x]
  | y :: ys => if cmp x y < 0 then x :: y :: ys else y :: insertSorted cmp x ys

/-- The builtin `Array.prototype.sort(cmp)`, as a stable insertion sort.  The algorithm of the
engine is another one: both return a permutation of the array, and both keep the entries in
the order the comparator imposes where the comparator is a consistent ordering; where the
comparator is not, the two can differ, and no statement below rests on the order this
function gives to such entries. -/
def sortBy {α : Type} (cmp : α → α → Int) (l : List α) : List α :=
  l.foldl (fun acc x => insertSorted cmp x acc) []

/-- Method `getTabs()` (lines 111-426).  `none` when an exception escapes. -/
def getTabs (h : Host) : Option (List TabInfo) :=
  match collectLeaves h with
  | none => none
  | some leaves =>
    -- line 289: the log statement about `activeLeaf`
    if !(match h.activeLeaf with
        | some a => probe (h.leaf a)
        | none => true) then none
    -- lines 291-327: the log statements about every leaf
    else if !leaves.all (fun lf => probe (h.leaf lf)) then none
    else some (sortBy (compareTabs h (recentFiles h)) (dedup (allTabs h leaves)))

/-! ## The switcher (`TabSwitcher` state, lines 58-82 and 730-988) -/

/-- The four modifier flags of `settings.comboKeys` and of `this.comboKeysPressed`. -/
structure ComboKeys where
  cmd : Bool
  ctrl : Bool
  alt : Bool
  shift : Bool
  deriving DecidableEq

/-- The plugin settings (`DEFAULT_SETTINGS`, lines 3-13). -/
structure Settings where
  switchKey : String
  useComboKeys : Bool
  strictSingleKeyMode : Bool
  comboKeys : ComboKeys
  deriving DecidableEq

/-- A `KeyboardEvent`: its `key` and its four modifier flags, which the DOM always defines
as booleans. -/
structure KeyEvent where
  key : String
  metaKey : Bool
  ctrlKey : Bool
  altKey : Bool
  shiftKey : Bool
  deriving DecidableEq

/-- The mutable fields of a `TabSwitcher`. -/
structure Switcher where
  currentIndex : Int
  /-- Undefined until the first `showTabBar`. -/
  originalIndex : Option Int
  isVisible : Bool
  keyPressed : Bool
  comboKeysPressed : ComboKeys
  comboKeysActive : Bool
  deriving DecidableEq

/-- The state set up by the constructor (lines 59-73). -/
def Switcher.initial : Switcher :=
  { currentIndex := 0
    originalIndex := none
    isVisible := false
    keyPressed := false
    comboKeysPressed := { cmd := false, ctrl := false, alt := false, shift := false }
    comboKeysActive := false }

/-- The argument of `moveSelection`: `'left'` or anything else. -/
inductive Direction where
  | left
  | right
  deriving DecidableEq

/-- What a method or handler leaves behind. -/
structure Run where
  /-- The switcher fields when control leaves the method. -/
  state : Switcher
  /-- The leaves passed to `workspace.setActiveLeaf`, in call order. -/
  activated : List Handle
  /-- Whether `event.preventDefault()` was called. -/
  prevented : Bool
  /-- Whether an exception escaped the method. -/
  raised : Bool
  deriving DecidableEq

/-- Normal return without any request to the host. -/
def Run.done (s : Switcher) : Run :=
  { state := s, activated := [], prevented := false, raised := false }

/-- An exception escaping with the switcher fields as they stand. -/
def Run.fail (s : Switcher) : Run :=
  { state := s, activated := [], prevented := false, raised := true }

/-- A handler statement `event.preventDefault()` placed after a call: reached only when the
call returned. -/
def Run.thenPrevent (r : Run) : Run :=
  if r.raised then r else { r with prevented := true }

/-- Method `showTabBar()` (lines 730-751); `renderTabBar` computes the catalog. -/
def showTabBar (h : Host) (s : Switcher) : Run :=
  if s.isVisible then Run.done s
  else
    let s1 : Switcher := { s with isVisible := true, currentIndex := 0, originalIndex := some 0 }
    match getTabs h with
    | none => Run.fail s1
    | some _ => Run.done s1

/-- Method `hideTabBar()` (lines 753-761). -/
def hideTabBar (s : Switcher) : Switcher :=
  if !s.isVisible then s
  else { s with isVisible := false, comboKeysActive := false }

/-- Method `moveSelection(direction)` (lines 763-784); `%` is the truncating remainder. -/
def moveSelection (h : Host) (s : Switcher) (direction : Direction) : Run :=
  if !s.isVisible then Run.done s
  else
    match getTabs h with
    | none => Run.fail s
    | some tabs =>
      if tabs.length = 0 then Run.done s
      else if direction = Direction.left then
        Run.done { s with
          currentIndex := Int.tmod (s.currentIndex - 1 + (tabs.length : Int)) (tabs.length : Int) }
      else
        Run.done { s with
          currentIndex := Int.tmod (s.currentIndex + 1) (tabs.length : Int) }

/-- Method `returnToCurrentTabPosition()` (lines 786-816). -/
def returnToCurrentTabPosition (h : Host) (s : Switcher) : Run :=
  if !s.isVisible then Run.done s
  else
    match getTabs h with
    | none => Run.fail s
    | some tabs =>
      match tabs.findIdx? (fun t => some t.leaf == h.activeLeaf) with
      | some currentTabIndex => Run.done { s with currentIndex := (currentTabIndex : Int) }
      | none => Run.done s

/-- The element `tabs[i]` of a JavaScript array: undefined outside `0 .. length - 1`. -/
def arrayAt {α : Type} (tabs : List α) (i : Int) : Option α :=
  if 0 ≤ i then tabs.get? i.toNat else none

/-- Method `switchToSelectedTab()` (lines 818-841). -/
def switchToSelectedTab (h : Host) (s : Switcher) : Run :=
  if !s.isVisible then Run.done s
  else
    match getTabs h with
    | none => Run.fail s
    | some tabs =>
      match arrayAt tabs s.currentIndex with
      | some selectedTab =>
        { state := hideTabBar s, activated := [selectedTab.leaf], prevented := false,
          raised := false }
      | none => Run.done (hideTabBar s)

/-- Method `updateComboKeyState(event, isPressed)` (lines 944-958).  Each guard
`event.key === ... || event.xKey !== undefined` holds for a `KeyboardEvent`. -/
def updateComboKeyState (s : Switcher) (event : KeyEvent) (isPressed : Bool) : Switcher :=
  { s with
    comboKeysPressed :=
      { cmd := if isPressed then event.metaKey else false
        ctrl := if isPressed then event.ctrlKey else false
        alt := if isPressed then event.altKey else false
        shift := if isPressed then event.shiftKey else false } }

/-- Method `isComboKeysPressed()` (lines 960-967). -/
def isComboKeysPressed (cfg : Settings) (s : Switcher) : Bool :=
  let required := cfg.comboKeys
  (!required.cmd || s.comboKeysPressed.cmd) &&
  (!required.ctrl || s.comboKeysPressed.ctrl) &&
  (!required.alt || s.comboKeysPressed.alt) &&
  (!required.shift || s.comboKeysPressed.shift) &&
  (required.cmd || required.ctrl || required.alt || required.shift)

/-- Method `checkStrictSingleKey(event)` (lines 975-988). -/
def checkStrictSingleKey (cfg : Settings) (event : KeyEvent) : Bool :=
  let targetKey := cfg.switchKey
  if targetKey = "Alt" then
    event.key = "Alt" && !event.ctrlKey && !event.metaKey && !event.shiftKey
  else if targetKey = "Control" then
    event.key = "Control" && !event.altKey && !event.metaKey && !event.shiftKey
  else if targetKey = "Meta" then
    event.key = "Meta" && !event.altKey && !event.ctrlKey && !event.shiftKey
  else false

/-- Method `isOnlySingleKeyPressed(event)` (lines 969-973). -/
def isOnlySingleKeyPressed (cfg : Settings) (event : KeyEvent) : Bool :=
  !cfg.strictSingleKeyMode || checkStrictSingleKey cfg event

/-- Method `handleKeyDown(event)` (lines 843-922). -/
def handleKeyDown (cfg : Settings) (h : Host) (s : Switcher) (event : KeyEvent) : Run :=
  let s1 := updateComboKeyState s event true
  if cfg.useComboKeys then
    if isComboKeysPressed cfg s1 then
      if !s1.comboKeysActive then
        (showTabBar h { s1 with comboKeysActive := true }).thenPrevent
      else if event.key = "ArrowLeft" then
        (moveSelection h s1 Direction.left).thenPrevent
      else if event.key = "ArrowRight" then
        (moveSelection h s1 Direction.right).thenPrevent
      else Run.done s1
    else Run.done s1
  else
    if event.key = cfg.switchKey && isOnlySingleKeyPressed cfg event then
      (if !s1.keyPressed then showTabBar h { s1 with keyPressed := true }
       else Run.done s1).thenPrevent
    else if s1.isVisible && s1.keyPressed then
      if event.key = "ArrowLeft" then
        (if s1.currentIndex = 0 then returnToCurrentTabPosition h s1
         else moveSelection h s1 Direction.left).thenPrevent
      else if event.key = "ArrowRight" then
        (moveSelection h s1 Direction.right).thenPrevent
      else Run.done s1
    else Run.done s1

/-- Method `handleKeyUp(event)` (lines 924-942). -/
def handleKeyUp (cfg : Settings) (h : Host) (s : Switcher) (event : KeyEvent) : Run :=
  let s1 := updateComboKeyState s event false
  if cfg.useComboKeys then
    if s1.comboKeysActive && !isComboKeysPressed cfg s1 then
      switchToSelectedTab h { s1 with comboKeysActive := false }
    else Run.done s1
  else
    if event.key = cfg.switchKey then
      switchToSelectedTab h { s1 with keyPressed := false }
    else Run.done s1

/-- The candidate descriptors (`allTabs`, lines 330-342) of a host; empty when the enumeration
of the leaves raises. -/
def candidates (h : Host) : List TabInfo :=
  match collectLeaves h with
  | some leaves => allTabs h leaves
  | none => []

/-! ## Invariant of the deduplication loop -/

/-- The invariant of the loop of lines 353-394 once the descriptors `pre` are processed. -/
structure DedupInv (st : Dedup) (pre : List TabInfo) : Prop where
  sub : ∀ t ∈ st.uniqueTabs, t ∈ pre
  nodup : (st.uniqueTabs.map TabInfo.leaf).Nodup
  seen : ∀ t ∈ st.uniqueTabs, t.leaf ∈ st.seenLeaves
  seenSub : ∀ x ∈ st.seenLeaves, ∃ t ∈ pre, t.leaf = x
  lookupMem : ∀ T e, st.seenTitles.lookup T = some e → e ∈ st.uniqueTabs ∧ e.title = T
  memLookup : ∀ e ∈ st.uniqueTabs, st.seenTitles.lookup e.title = some e

/-! ## Example hosts -/

/-- A view with no property set. -/
def View.blank : View :=
  { getViewType := Call.absent, viewType := none, file := none, navigation := false,
    constructorName := some "View", dataFile := none, editorFile := none, hasApp := false,
    url := none, src := none, iframeSrc := none, frameSrc := none, webviewSrc := none,
    containerIframes := none, getDisplayText := Call.absent, title := none, name := none,
    id := none }

/-- A markdown leaf open on the file `path` with base name `base`. -/
def fileLeaf (base path : String) (mtime : Nat) : Leaf :=
  { getViewType := Call.returns (some "markdown")
    view := some { View.blank with
      file := some { basename := base, path := path, mtime := some mtime }
      getDisplayText := Call.returns (some base) }
    getDisplayText := Call.absent
    id := none }

/-- A web-viewer leaf showing `url` under the title `title`. -/
def webLeaf (title url : String) : Leaf :=
  { getViewType := Call.returns (some "webview")
    view := some { View.blank with
      url := some url
      getDisplayText := Call.returns (some title) }
    getDisplayText := Call.absent
    id := none }

/-- A leaf without a view. -/
def noLeaf : Leaf :=
  { getViewType := Call.absent, view := none, getDisplayText := Call.absent, id := none }

/-- Comparison of two strings by code points, as `-1`, `0` or `1`. -/
def compareChars : List Char → List Char → Int
  | [], [] => 0
  | [], _ :: _ => -1
  | _ :: _, [] => 1
  | a :: as, b :: bs =>
    if a.toNat < b.toNat then -1
    else if b.toNat < a.toNat then 1
    else compareChars as bs

/-- A host whose open leaves are `ls` (handle `i` is the `i`-th of them), all reported by the
tree walk, with the given active leaf and recently used files. -/
def Host.ofLeaves (ls : List Leaf) (active : Option Handle) (recent : List String) : Host :=
  { leaf := fun i => ls.getD i noLeaf
    getLeavesOfType := fun _ => some []
    iterateLeaves := List.range ls.length
    iterateAllLeaves := none
    tabHeaders := []
    activeLeaf := active
    getLastOpenFiles := Call.returns recent
    getActiveFile := Call.absent
    localeCompare := fun a b => compareChars a.data b.data
    entropy := "0_x" }

/-- Three notes, the first of them active, and one web page. -/
def hostNotes : Host :=
  Host.ofLeaves
    [fileLeaf "inbox" "inbox.md" 5, fileLeaf "plan" "work/plan.md" 10,
     webLeaf "docs" "https://example.org/docs", fileLeaf "log" "work/log.md" 30]
    (some 0) ["work/log.md"]

/-- A host with no open leaf. -/
def hostEmpty : Host := Host.ofLeaves [] none []


/-- Two notes and a web page, each yielded by several enumeration mechanisms: the by-type
queries (one leaf twice), the tab headers of the document and the tree walk. -/
def hostOverlap : Host :=
  { Host.ofLeaves
      [fileLeaf "a" "a.md" 1, fileLeaf "b" "b.md" 2, webLeaf "c" "https://c.example"] none [] with
    getLeavesOfType := fun ty =>
      if ty = "markdown" then some [1, 0, 1]
      else if ty = "webview" then some [2]
      else some []
    tabHeaders :=
      [{ title := some "a", containerLeaf := some 0, workspaceLeaf := none, headerLeaf := none },
       { title := some "c", containerLeaf := none, workspaceLeaf := none, headerLeaf := none }] }

/-- The catalog of `hostOverlap`. -/
def hostOverlapTabs : List TabInfo :=
  [fileTab 1 { basename := "b", path := "b.md", mtime := some 2 },
   fileTab 0 { basename := "a", path := "a.md", mtime := some 1 },
   { leaf := 2, file := none, title := "c", path := "https://c.example", type := TabType.web }]

/-- Three notes `p1`, `p2`, `p3`, the last one the newest, with recency list `[p2, p1]`. -/
def hostRecency : Host :=
  Host.ofLeaves [fileLeaf "n1" "p1" 10, fileLeaf "n2" "p2" 20, fileLeaf "n3" "p3" 30] none
    ["p2", "p1"]

/-- The catalog of `hostRecency`. -/
def hostRecencyTabs : List TabInfo :=
  [fileTab 1 { basename := "n2", path := "p2", mtime := some 20 },
   fileTab 0 { basename := "n1", path := "p1", mtime := some 10 },
   fileTab 2 { basename := "n3", path := "p3", mtime := some 30 }]

/-- The catalog of `hostNotes`. -/
def hostNotesTabs : List TabInfo :=
  [fileTab 3 { basename := "log", path := "work/log.md", mtime := some 30 },
   { leaf := 2, file := none, title := "docs", path := "https://example.org/docs",
     type := TabType.web },
   fileTab 1 { basename := "plan", path := "work/plan.md", mtime := some 10 }]

/-- Two notes with the same base name in different folders, with a web page of the same title
enumerated between them. -/
def hostTitleClash : Host :=
  Host.ofLeaves
    [fileLeaf "index" "a/index.md" 10, webLeaf "index" "https://example.org/",
     fileLeaf "index" "b/index.md" 20] none []

/-- A web page enumerated before a note of the same title. -/
def hostWebFirst : Host :=
  Host.ofLeaves [webLeaf "index" "https://example.org/", fileLeaf "index" "a/index.md" 10] none []

/-- The descriptor of the note `a/index.md` at leaf `lf`. -/
def indexNoteA (lf : Handle) : TabInfo :=
  fileTab lf { basename := "index", path := "a/index.md", mtime := some 10 }

/-- The descriptor of the note `b/index.md` at leaf `lf`. -/
def indexNoteB (lf : Handle) : TabInfo :=
  fileTab lf { basename := "index", path := "b/index.md", mtime := some 20 }

/-- The descriptor of the web page titled `index` at leaf `lf`. -/
def indexPage (lf : Handle) : TabInfo :=
  { leaf := lf, file := none, title := "index", path := "https://example.org/",
    type := TabType.web }

/-! ## Vocabulary of the key-handling claims -/

/-- The four modifier families. -/
inductive Modifier where
  | cmd
  | ctrl
  | alt
  | shift
  deriving DecidableEq

/-- The `key` value a keyboard event reports for a modifier. -/
def Modifier.key : Modifier → String
  | Modifier.cmd => "Meta"
  | Modifier.ctrl => "Control"
  | Modifier.alt => "Alt"
  | Modifier.shift => "Shift"

/-- The `comboKeys` setting that requires exactly the modifiers of `ms`. -/
def requiredOf (ms : List Modifier) : ComboKeys :=
  { cmd := ms.contains Modifier.cmd
    ctrl := ms.contains Modifier.ctrl
    alt := ms.contains Modifier.alt
    shift := ms.contains Modifier.shift }

/-- The event for the key of modifier `m`, reporting exactly the modifiers of `held` as
pressed. -/
def modifierEvent (m : Modifier) (held : List Modifier) : KeyEvent :=
  { key := m.key
    metaKey := held.contains Modifier.cmd
    ctrlKey := held.contains Modifier.ctrl
    altKey := held.contains Modifier.alt
    shiftKey := held.contains Modifier.shift }

/-- Whether the event reports a modifier other than the one of the key `key` as pressed. -/
def otherModifierHeld (key : String) (event : KeyEvent) : Bool :=
  (key != "Alt" && event.altKey) || (key != "Control" && event.ctrlKey) ||
  (key != "Meta" && event.metaKey) || event.shiftKey

/-- Single-key settings with switch key `key`. -/
def singleKeySettings (key : String) (strict : Bool) : Settings :=
  { switchKey := key
    useComboKeys := false
    strictSingleKeyMode := strict
    comboKeys := { cmd := true, ctrl := true, alt := true, shift := true } }

/-- Combo settings requiring the modifiers of `ms`. -/
def comboSettings (ms : List Modifier) : Settings :=
  { switchKey := "Alt"
    useComboKeys := true
    strictSingleKeyMode := false
    comboKeys := requiredOf ms }

/-- The switcher in single-key mode with the overlay shown and the selection at `i`. -/
def shownAt (i : Int) : Switcher :=
  { currentIndex := i
    originalIndex := some 0
    isVisible := true
    keyPressed := true
    comboKeysPressed := { cmd := false, ctrl := false, alt := true, shift := false }
    comboKeysActive := false }

/-! ## Event sequences -/

/-- A keyboard event as the document dispatches it. -/
inductive KeyInput where
  | down (event : KeyEvent)
  | up (event : KeyEvent)
  deriving DecidableEq

/-- The registered listener for an input: `handleKeyDown` or `handleKeyUp` (lines 25-26). -/
def dispatch (cfg : Settings) (h : Host) (s : Switcher) : KeyInput → Run
  | KeyInput.down event => handleKeyDown cfg h s event
  | KeyInput.up event => handleKeyUp cfg h s event

/-- The switcher after a sequence of inputs, each handled under the host state of its
moment.  An exception escaping a listener leaves the fields as they stand. -/
def runEvents (cfg : Settings) (s : Switcher) : List (Host × KeyInput) → Switcher
  | [] => s
  | (h, input) :: rest => runEvents cfg (dispatch cfg h s input).state rest

/-- The flag of a modifier in a `comboKeys` record. -/
def ComboKeys.has (c : ComboKeys) : Modifier → Bool
  | Modifier.cmd => c.cmd
  | Modifier.ctrl => c.ctrl
  | Modifier.alt => c.alt
  | Modifier.shift => c.shift

/-- A key event for a key that is not a modifier, reporting the modifiers of `held`. -/
def plainEvent (key : String) (held : List Modifier) : KeyEvent :=
  { key := key
    metaKey := held.contains Modifier.cmd
    ctrlKey := held.contains Modifier.ctrl
    altKey := held.contains Modifier.alt
    shiftKey := held.contains Modifier.shift }

/-! ## Invariant of the selection -/

/-- The selection is a non-negative integer, below `N` when `N` is not zero. -/
def InRange (N : Nat) (s : Switcher) : Prop :=
  0 ≤ s.currentIndex ∧ (N ≠ 0 → s.currentIndex < N)

/-- The host yields catalogs of size `N`, when it yields one; no condition for `N = 0`. -/
def SizedHost (N : Nat) (h : Host) : Prop :=
  ∀ tabs, getTabs h = some tabs → N = 0 ∨ tabs.length = N

/-! ## Example sequences -/

/-- Two notes, the first of them active: a catalog of one entry. -/
def hostOne : Host :=
  Host.ofLeaves [fileLeaf "inbox" "inbox.md" 5, fileLeaf "plan" "work/plan.md" 10] (some 0) []

/-- Single-key mode: `Alt` is pressed while the host has no open leaf. -/
def traceShowEmpty : List (Host × KeyInput) :=
  [(hostEmpty, KeyInput.down (modifierEvent Modifier.alt [Modifier.alt]))]

/-- Single-key mode over three catalog entries: `Alt` is pressed, then `ArrowRight` twice. -/
def traceTwoRight : List (Host × KeyInput) :=
  [(hostNotes, KeyInput.down (modifierEvent Modifier.alt [Modifier.alt])),
   (hostNotes, KeyInput.down (plainEvent "ArrowRight" [Modifier.alt])),
   (hostNotes, KeyInput.down (plainEvent "ArrowRight" [Modifier.alt]))]

/-- The sequence `traceTwoRight` followed by a key-down of `a` once the host has closed two
of its leaves. -/
def traceShrink : List (Host × KeyInput) :=
  traceTwoRight ++ [(hostOne, KeyInput.down (plainEvent "a" [Modifier.alt]))]

/-! ## Example hosts for the classification and deduplication claims -/

/-- Two notes with the same base name in different folders. -/
def hostSameName : Host :=
  Host.ofLeaves [fileLeaf "index" "a/index.md" 10, fileLeaf "index" "b/index.md" 20] none []

/-- A `custom-frames` leaf that exposes no URL, shown under the title `title`. -/
def frameLeaf (title : String) : Leaf :=
  { getViewType := Call.returns (some "custom-frames")
    view := some { View.blank with getDisplayText := Call.returns (some title) }
    getDisplayText := Call.absent
    id := none }

/-- Two `custom-frames` leaves with different titles. -/
def hostFrames : Host :=
  Host.ofLeaves [frameLeaf "Calendar", frameLeaf "Mail"] none []

/-- The descriptor of a `custom-frames` leaf without URL. -/
def frameTab (lf : Handle) (title : String) : TabInfo :=
  { leaf := lf, file := none, title := title, path := "custom-frames://internal",
    type := TabType.web }

/-- A note whose view also carries every web attribute the classifier looks at. -/
def hybridLeaf : Leaf :=
  { getViewType := Call.returns (some "webview")
    view := some { View.blank with
      file := some { basename := "plan", path := "work/plan.md", mtime := some 10 }
      url := some "https://example.org/"
      src := some "https://example.org/"
      containerIframes := some [some "https://example.org/frame"]
      getDisplayText := Call.returns (some "Example") }
    getDisplayText := Call.absent
    id := none }

/-- A host whose second leaf is `hybridLeaf`. -/
def hostHybrid : Host :=
  Host.ofLeaves [fileLeaf "inbox" "inbox.md" 5, hybridLeaf] none []

/-- A host with a file whose base name is empty. -/
def hostDotFile : Host :=
  Host.ofLeaves [fileLeaf "" ".md" 1] none []

/-- A web viewer whose `view.getDisplayText()` raises. -/
def throwingTitleLeaf : Leaf :=
  { getViewType := Call.returns (some "webview")
    view := some { View.blank with
      url := some "https://example.org/"
      getDisplayText := Call.throws }
    getDisplayText := Call.absent
    id := none }

/-- A note whose `leaf.getViewType()` raises. -/
def throwingTypeLeaf : Leaf :=
  { getViewType := Call.throws
    view := some { View.blank with
      file := some { basename := "plan", path := "work/plan.md", mtime := some 10 } }
    getDisplayText := Call.absent
    id := none }

/-- One note. -/
def hostHealthy : Host :=
  Host.ofLeaves [fileLeaf "inbox" "inbox.md" 5] none []

/-- The note of `hostHealthy` and a web viewer whose display text raises. -/
def hostFaultyTitle : Host :=
  Host.ofLeaves [fileLeaf "inbox" "inbox.md" 5, throwingTitleLeaf] none []

/-- The note of `hostHealthy` and a note whose view type raises. -/
def hostFaultyType : Host :=
  Host.ofLeaves [fileLeaf "inbox" "inbox.md" 5, throwingTypeLeaf] none []

/-- Combo mode with `Control` and `Alt` required: `Control` is pressed, then `Alt`. -/
def traceComboDown : List (Host × KeyInput) :=
  [(hostNotes, KeyInput.down (modifierEvent Modifier.ctrl [Modifier.ctrl])),
   (hostNotes, KeyInput.down (modifierEvent Modifier.alt [Modifier.ctrl, Modifier.alt]))]

/-- The switcher after `traceComboDown`: overlay visible, latch set. -/
def comboLatched : Switcher :=
  runEvents (comboSettings [Modifier.ctrl, Modifier.alt]) Switcher.initial traceComboDown

/-! ## Vocabulary and examples for the comparator and the latch -/

/-- The latch of the current mode: `comboKeysActive` in combo mode, `keyPressed` in
single-key mode. -/
def latch (cfg : Settings) (s : Switcher) : Bool :=
  if cfg.useComboKeys then s.comboKeysActive else s.keyPressed

/-- The descriptor of the note `a.md`, the older one, at leaf `lf`. -/
def noteOld (lf : Handle) : TabInfo :=
  fileTab lf { basename := "a", path := "a.md", mtime := some 1 }

/-- The descriptor of the web page titled `b` at leaf `lf`. -/
def pageB (lf : Handle) : TabInfo :=
  { leaf := lf, file := none, title := "b", path := "https://b.example/", type := TabType.web }

/-- The descriptor of the note `c.md`, the newer one, at leaf `lf`. -/
def noteNew (lf : Handle) : TabInfo :=
  fileTab lf { basename := "c", path := "c.md", mtime := some 2 }

/-- The notes `a.md` and `c.md` and the web page `b`, enumerated as note, page, note; no
recently used file. -/
def hostMixA : Host :=
  Host.ofLeaves
    [fileLeaf "a" "a.md" 1, webLeaf "b" "https://b.example/", fileLeaf "c" "c.md" 2] none []

/-- Single-key mode: `Alt` is pressed over a healthy host, released while a leaf of the host
raises from `getDisplayText()`, and the key `a` is pressed once the host is healthy again. -/
def traceRaiseOnRelease : List (Host × KeyInput) :=
  [(hostNotes, KeyInput.down (modifierEvent Modifier.alt [Modifier.alt])),
   (hostFaultyTitle, KeyInput.up (modifierEvent Modifier.alt [])),
   (hostNotes, KeyInput.down (plainEvent "a" []))]

/-- Combo mode with `Control` and `Alt` required: both are pressed over a healthy host, `Alt`
is released while a leaf of the host raises, and the key `a` is pressed afterwards. -/
def traceComboRaiseOnRelease : List (Host × KeyInput) :=
  traceComboDown ++
    [(hostFaultyTitle, KeyInput.up (modifierEvent Modifier.alt [Modifier.ctrl])),
     (hostNotes, KeyInput.down (plainEvent "a" [Modifier.ctrl]))]

/-! ## The catalog a listener computes -/

/-- Whether `showTabBar()` reaches `renderTabBar()` and its call of `getTabs` (line 670):
not when the overlay is visible already (line 731). -/
def showTabBarComputes (s : Switcher) : Bool := !s.isVisible

/-- Whether `moveSelection` reaches its call of `getTabs` (line 766), past the guard of
line 764. -/
def moveSelectionComputes (s : Switcher) : Bool := s.isVisible

/-- Whether `returnToCurrentTabPosition` reaches its call of `getTabs` (line 789), past the
guard of line 787. -/
def returnToCurrentTabPositionComputes (s : Switcher) : Bool := s.isVisible

/-- Whether `switchToSelectedTab` reaches its call of `getTabs` (line 821), past the guard of
line 819. -/
def switchToSelectedTabComputes (s : Switcher) : Bool := s.isVisible

/-- Whether `handleKeyDown(event)` computes a catalog: the branches of lines 865-921 with
each method call replaced by whether that method reaches `getTabs`. -/
def handleKeyDownComputes (cfg : Settings) (s : Switcher) (event : KeyEvent) : Bool :=
  let s1 := updateComboKeyState s event true
  if cfg.useComboKeys then
    if isComboKeysPressed cfg s1 then
      if !s1.comboKeysActive then
        showTabBarComputes { s1 with comboKeysActive := true }
      else if event.key = "ArrowLeft" then
        moveSelectionComputes s1
      else if event.key = "ArrowRight" then
        moveSelectionComputes s1
      else false
    else false
  else
    if event.key = cfg.switchKey && isOnlySingleKeyPressed cfg event then
      (if !s1.keyPressed then showTabBarComputes { s1 with keyPressed := true }
       else false)
    else if s1.isVisible && s1.keyPressed then
      if event.key = "ArrowLeft" then
        (if s1.currentIndex = 0 then returnToCurrentTabPositionComputes s1
         else moveSelectionComputes s1)
      else if event.key = "ArrowRight" then
        moveSelectionComputes s1
      else false
    else false

/-- Whether `handleKeyUp(event)` computes a catalog: the branches of lines 928-941 with the
call of `switchToSelectedTab` replaced by whether it reaches `getTabs`. -/
def handleKeyUpComputes (cfg : Settings) (s : Switcher) (event : KeyEvent) : Bool :=
  let s1 := updateComboKeyState s event false
  if cfg.useComboKeys then
    if s1.comboKeysActive && !isComboKeysPressed cfg s1 then
      switchToSelectedTabComputes { s1 with comboKeysActive := false }
    else false
  else
    if event.key = cfg.switchKey then
      switchToSelectedTabComputes { s1 with keyPressed := false }
    else false

/-- Whether the listener for an input computes a catalog. -/
def computes (cfg : Settings) (s : Switcher) : KeyInput → Bool
  | KeyInput.down event => handleKeyDownComputes cfg s event
  | KeyInput.up event => handleKeyUpComputes cfg s event

/-- The size of the catalog most recently computed, once a listener has run under the host
`h`: the size of the catalog of `h` when the listener calls `getTabs` and the call returns,
the former value otherwise. -/
def sizeAfter (calls : Bool) (h : Host) (last : Option Nat) : Option Nat :=
  if calls then
    match getTabs h with
    | some tabs => some tabs.length
    | none => last
  else last

/-- The size of the catalog most recently computed by a listener along a sequence of inputs
that starts in state `s`; `last` is the value before the sequence, `none` when no catalog has
been computed yet. -/
def lastCatalogSize (cfg : Settings) (s : Switcher) (last : Option Nat) :
    List (Host × KeyInput) → Option Nat
  | [] => last
  | (h, input) :: rest =>
    lastCatalogSize cfg (dispatch cfg h s input).state
      (sizeAfter (computes cfg s input) h last) rest

/-- The selection is a non-negative integer and, with the overlay visible, it is below the
size of the catalog most recently computed when that catalog is not empty. -/
def SelectionOk (s : Switcher) (last : Option Nat) : Prop :=
  0 ≤ s.currentIndex ∧
  (s.isVisible = true → ∀ N : Nat, last = some N → 1 ≤ N → s.currentIndex < N)
/-! ## Lemmas: the sort -/

theorem insertSorted_perm {α : Type} (cmp : α → α → Int) (x : α) (l : List α) :
    (insertSorted cmp x l).Perm (x :: l) := by
  induction l with
  | nil => exact List.Perm.refl _
  | cons y ys ih =>
    unfold insertSorted
    split
    · exact List.Perm.refl _
    · exact (List.Perm.cons y ih).trans (List.Perm.swap x y ys)

theorem foldl_insertSorted_perm {α : Type} (cmp : α → α → Int) (l : List α) :
    ∀ acc : List α, (l.foldl (fun acc x => insertSorted cmp x acc) acc).Perm (l ++ acc) := by
  induction l with
  | nil => intro acc; exact List.Perm.refl _
  | cons x xs ih =>
    intro acc
    simp only [List.foldl_cons]
    refine (ih (insertSorted cmp x acc)).trans ?_
    refine (List.Perm.append_left xs (insertSorted_perm cmp x acc)).trans ?_
    simp

theorem sortBy_perm {α : Type} (cmp : α → α → Int) (l : List α) : (sortBy cmp l).Perm l := by
  have := foldl_insertSorted_perm cmp l []
  simpa [sortBy] using this

theorem mem_sortBy {α : Type} (cmp : α → α → Int) (l : List α) (x : α) :
    x ∈ sortBy cmp l ↔ x ∈ l :=
  (sortBy_perm cmp l).mem_iff

/-- Inserting into a list that is pairwise ordered by a transitive relation `R` keeps it so,
as long as the comparator only answers "before" for `R`-related pairs and "not before" for
pairs related the other way. -/
theorem insertSorted_pairwise {α : Type} (cmp : α → α → Int) (R : α → α → Prop)
    (htrans : ∀ a b c, R a b → R b c → R a c)
    (hlt : ∀ a b, cmp a b < 0 → R a b)
    (hge : ∀ a b, ¬ cmp a b < 0 → R b a)
    (x : α) (l : List α) (hl : l.Pairwise R) : (insertSorted cmp x l).Pairwise R := by
  induction l with
  | nil => simp [insertSorted]
  | cons y ys ih =>
    have hy := List.pairwise_cons.mp hl
    unfold insertSorted
    split
    · rename_i hxy
      refine List.pairwise_cons.mpr ⟨?_, hl⟩
      intro z hz
      rcases List.mem_cons.mp hz with rfl | hz
      · exact hlt _ _ hxy
      · exact htrans _ _ _ (hlt _ _ hxy) (hy.1 z hz)
    · rename_i hxy
      refine List.pairwise_cons.mpr ⟨?_, ih hy.2⟩
      intro z hz
      rcases (List.mem_cons.mp ((insertSorted_perm cmp x ys).mem_iff.mp hz)) with rfl | hz
      · exact hge _ _ hxy
      · exact hy.1 z hz

theorem sortBy_pairwise {α : Type} (cmp : α → α → Int) (R : α → α → Prop)
    (htrans : ∀ a b c, R a b → R b c → R a c)
    (hlt : ∀ a b, cmp a b < 0 → R a b)
    (hge : ∀ a b, ¬ cmp a b < 0 → R b a)
    (l : List α) : (sortBy cmp l).Pairwise R := by
  have key : ∀ (l acc : List α), acc.Pairwise R →
      (l.foldl (fun acc x => insertSorted cmp x acc) acc).Pairwise R := by
    intro l
    induction l with
    | nil => intro acc hacc; simpa using hacc
    | cons x xs ih =>
      intro acc hacc
      simp only [List.foldl_cons]
      exact ih _ (insertSorted_pairwise cmp R htrans hlt hge x acc hacc)
  exact key l [] List.Pairwise.nil

/-! ## Lemmas: classification -/

theorem webTab_leaf {lf : Handle} {l : Leaf} {v : View} {vt : Option String} {t : TabInfo}
    (ht : webTab lf l v vt = some (some t)) : t.leaf = lf ∧ t.type = TabType.web := by
  unfold webTab at ht
  simp only at ht
  split at ht
  · split at ht
    · exact absurd ht (by simp)
    · simp only [Option.some.injEq] at ht
      subst ht
      exact ⟨rfl, rfl⟩
  · exact absurd ht (by simp)

theorem otherTab_leaf {h : Host} {lf : Handle} {l : Leaf} {vt : Option String} {t : TabInfo}
    (ht : otherTab h lf l vt = some t) : t.leaf = lf ∧ t.type = TabType.other := by
  unfold otherTab at ht
  simp only at ht
  split at ht
  · exact absurd ht (by simp)
  · simp only [Option.some.injEq] at ht
    subst ht
    exact ⟨rfl, rfl⟩

/-- A descriptor returned by `getTabInfo` carries the leaf it was computed for. -/
theorem getTabInfo_leaf {h : Host} {lf : Handle} {t : TabInfo}
    (ht : getTabInfo h lf = some t) : t.leaf = lf := by
  unfold getTabInfo at ht
  simp only at ht
  split at ht
  · exact (otherTab_leaf ht).1
  · split at ht
    · simp only [Option.some.injEq] at ht
      subst ht
      rfl
    · split at ht
      · exact absurd ht (by simp)
      · split at ht
        · simp only [Option.some.injEq] at ht
          subst ht
          rfl
        · split at ht
          · exact absurd ht (by simp)
          · rename_i hw
            simp only [Option.some.injEq] at ht
            subst ht
            exact (webTab_leaf hw).1
          · exact (otherTab_leaf ht).1

/-! ## Lemmas: the deduplication loop -/

theorem lookup_cons_eq {β : Type} (k : String) (b : β) (es : List (String × β)) (a : String) :
    List.lookup a ((k, b) :: es) = if a = k then some b else List.lookup a es := by
  rw [List.lookup_cons]
  by_cases hak : a = k
  · simp [hak]
  · have hb : (a == k) = false := by simpa using hak
    simp only [hb]
    simp [hak]

theorem mem_set_indexOf_of_ne {α : Type} [DecidableEq α] (t e x : α) :
    ∀ l : List α, x ∈ l → x ≠ e → x ∈ l.set (l.indexOf e) t := by
  intro l
  induction l with
  | nil => intro hx; simp at hx
  | cons y ys ih =>
    intro hx hne
    by_cases hye : y = e
    · rw [List.indexOf_cons_eq _ hye]
      rcases List.mem_cons.mp hx with hxy | hxy
      · exact absurd (hxy.trans hye) hne
      · simp [hxy]
    · rw [List.indexOf_cons_ne _ hye]
      rcases List.mem_cons.mp hx with hxy | hxy
      · simp [hxy]
      · simp only [List.set_cons_succ, List.mem_cons]
        exact Or.inr (ih hxy hne)

theorem mem_set_indexOf_cases {α : Type} [DecidableEq α] (t e x : α) :
    ∀ l : List α, l.Nodup → x ∈ l.set (l.indexOf e) t → x = t ∨ (x ∈ l ∧ x ≠ e) := by
  intro l
  induction l with
  | nil => intro _ hx; simp at hx
  | cons y ys ih =>
    intro hnd hx
    have hnd2 := List.nodup_cons.mp hnd
    by_cases hye : y = e
    · rw [List.indexOf_cons_eq _ hye] at hx
      simp only [List.set_cons_zero, List.mem_cons] at hx
      rcases hx with hx | hx
      · exact Or.inl hx
      · refine Or.inr ⟨List.mem_cons_of_mem _ hx, ?_⟩
        intro hxe
        exact hnd2.1 (by rw [hye, ← hxe]; exact hx)
    · rw [List.indexOf_cons_ne _ hye] at hx
      simp only [List.set_cons_succ, List.mem_cons] at hx
      rcases hx with hx | hx
      · exact Or.inr ⟨by simp [hx], by rw [hx]; exact hye⟩
      · rcases ih hnd2.2 hx with h1 | h1
        · exact Or.inl h1
        · exact Or.inr ⟨List.mem_cons_of_mem _ h1.1, h1.2⟩

theorem DedupInv.start : DedupInv { uniqueTabs := [], seenLeaves := [], seenTitles := [] } [] :=
  { sub := by simp
    nodup := by simp
    seen := by simp
    seenSub := by simp
    lookupMem := by simp
    memLookup := by simp }

/-- Skipping a descriptor, with or without recording its leaf. -/
theorem DedupInv.skip {st : Dedup} {pre : List TabInfo} (inv : DedupInv st pre) (tab : TabInfo) :
    DedupInv st (pre ++ [tab]) ∧
    DedupInv { st with seenLeaves := tab.leaf :: st.seenLeaves } (pre ++ [tab]) := by
  constructor
  · exact
      { sub := fun t ht => List.mem_append_left _ (inv.sub t ht)
        nodup := inv.nodup
        seen := inv.seen
        seenSub := fun x hx => by
          obtain ⟨t, ht, hl⟩ := inv.seenSub x hx
          exact ⟨t, List.mem_append_left _ ht, hl⟩
        lookupMem := inv.lookupMem
        memLookup := inv.memLookup }
  · exact
      { sub := fun t ht => List.mem_append_left _ (inv.sub t ht)
        nodup := inv.nodup
        seen := fun t ht => List.mem_cons_of_mem _ (inv.seen t ht)
        seenSub := fun x hx => by
          rcases List.mem_cons.mp hx with hx | hx
          · exact ⟨tab, by simp, hx.symm⟩
          · obtain ⟨t, ht, hl⟩ := inv.seenSub x hx
            exact ⟨t, List.mem_append_left _ ht, hl⟩
        lookupMem := inv.lookupMem
        memLookup := inv.memLookup }

/-- Appending a descriptor with a new leaf and a new title. -/
theorem DedupInv.push {st : Dedup} {pre : List TabInfo} (inv : DedupInv st pre) (tab : TabInfo)
    (hleaf : tab.leaf ∉ st.seenLeaves) (htitle : st.seenTitles.lookup tab.title = none) :
    DedupInv
      { uniqueTabs := st.uniqueTabs ++ [tab]
        seenLeaves := tab.leaf :: st.seenLeaves
        seenTitles := (tab.title, tab) :: st.seenTitles } (pre ++ [tab]) :=
  { sub := fun t ht => by
      rcases List.mem_append.mp ht with ht | ht
      · exact List.mem_append_left _ (inv.sub t ht)
      · exact List.mem_append_right _ ht
    nodup := by
      simp only [List.map_append, List.map_cons, List.map_nil]
      refine List.Nodup.append inv.nodup (List.nodup_singleton _) ?_
      intro x hx hx2
      rw [List.mem_singleton] at hx2
      obtain ⟨t, ht, hl⟩ := List.mem_map.mp hx
      exact hleaf (by rw [← hx2, ← hl]; exact inv.seen t ht)
    seen := fun t ht => by
      rcases List.mem_append.mp ht with ht | ht
      · exact List.mem_cons_of_mem _ (inv.seen t ht)
      · rw [List.mem_singleton] at ht
        simp [ht]
    seenSub := fun x hx => by
      rcases List.mem_cons.mp hx with hx | hx
      · exact ⟨tab, by simp, hx.symm⟩
      · obtain ⟨t, ht, hl⟩ := inv.seenSub x hx
        exact ⟨t, List.mem_append_left _ ht, hl⟩
    lookupMem := fun T e hT => by
      rw [lookup_cons_eq] at hT
      split at hT
      · rename_i hTt
        simp only [Option.some.injEq] at hT
        subst hT
        exact ⟨by simp, hTt.symm⟩
      · obtain ⟨h1, h2⟩ := inv.lookupMem T e hT
        exact ⟨List.mem_append_left _ h1, h2⟩
    memLookup := fun e he => by
      rw [lookup_cons_eq]
      rcases List.mem_append.mp he with he | he
      · have hl := inv.memLookup e he
        have hne : e.title ≠ tab.title := by
          intro heq
          rw [heq, htitle] at hl
          exact absurd hl (by simp)
        simp [hne, hl]
      · rw [List.mem_singleton] at he
        simp [he] }

/-- Overwriting the slot of the descriptor registered under the same title. -/
theorem DedupInv.replace {st : Dedup} {pre : List TabInfo} (inv : DedupInv st pre)
    (tab existingTab : TabInfo) (hleaf : tab.leaf ∉ st.seenLeaves)
    (htitle : st.seenTitles.lookup tab.title = some existingTab) :
    replaceExisting { st with seenLeaves := tab.leaf :: st.seenLeaves } existingTab tab =
      { uniqueTabs := st.uniqueTabs.set (st.uniqueTabs.indexOf existingTab) tab
        seenLeaves := tab.leaf :: st.seenLeaves
        seenTitles := (tab.title, tab) :: st.seenTitles } ∧
    DedupInv (replaceExisting { st with seenLeaves := tab.leaf :: st.seenLeaves } existingTab tab)
      (pre ++ [tab]) := by
  have hmem := (inv.lookupMem _ _ htitle).1
  have hidx : st.uniqueTabs.indexOf existingTab < st.uniqueTabs.length :=
    List.indexOf_lt_length.mpr hmem
  have heq : replaceExisting { st with seenLeaves := tab.leaf :: st.seenLeaves } existingTab tab =
      { uniqueTabs := st.uniqueTabs.set (st.uniqueTabs.indexOf existingTab) tab
        seenLeaves := tab.leaf :: st.seenLeaves
        seenTitles := (tab.title, tab) :: st.seenTitles } := by
    simp [replaceExisting, hidx]
  refine ⟨heq, ?_⟩
  rw [heq]
  have hnd : st.uniqueTabs.Nodup := List.Nodup.of_map _ inv.nodup
  exact
    { sub := fun t ht => by
        rcases List.mem_or_eq_of_mem_set ht with ht | ht
        · exact List.mem_append_left _ (inv.sub t ht)
        · simp [ht]
      nodup := by
        simp only [List.map_set]
        refine List.Nodup.set inv.nodup ?_
        intro hx
        obtain ⟨t, ht, hl⟩ := List.mem_map.mp hx
        exact hleaf (by rw [← hl]; exact inv.seen t ht)
      seen := fun t ht => by
        rcases List.mem_or_eq_of_mem_set ht with ht | ht
        · exact List.mem_cons_of_mem _ (inv.seen t ht)
        · simp [ht]
      seenSub := fun x hx => by
        rcases List.mem_cons.mp hx with hx | hx
        · exact ⟨tab, by simp, hx.symm⟩
        · obtain ⟨t, ht, hl⟩ := inv.seenSub x hx
          exact ⟨t, List.mem_append_left _ ht, hl⟩
      lookupMem := fun T e hT => by
        rw [lookup_cons_eq] at hT
        split at hT
        · rename_i hTt
          simp only [Option.some.injEq] at hT
          subst hT
          exact ⟨List.mem_set _ _ hidx _, hTt.symm⟩
        · rename_i hTt
          obtain ⟨h1, h2⟩ := inv.lookupMem T e hT
          refine ⟨mem_set_indexOf_of_ne _ _ _ _ h1 ?_, h2⟩
          intro hee
          apply hTt
          rw [← h2, hee]
          exact ((inv.lookupMem _ _ htitle).2)
      memLookup := fun e he => by
        rw [lookup_cons_eq]
        rcases mem_set_indexOf_cases _ _ _ _ hnd he with he | ⟨he, hne⟩
        · simp [he]
        · have hl := inv.memLookup e he
          have hne2 : e.title ≠ tab.title := by
            intro h2
            rw [h2, htitle] at hl
            exact hne (Option.some.inj hl).symm
          simp [hne2, hl] }

theorem dedupStep_inv {st : Dedup} {pre : List TabInfo} (inv : DedupInv st pre) (tab : TabInfo) :
    DedupInv (dedupStep st tab) (pre ++ [tab]) := by
  unfold dedupStep
  split
  · exact (inv.skip tab).1
  · rename_i hseen
    have hleaf : tab.leaf ∉ st.seenLeaves := by simpa using hseen
    simp only
    split
    · rename_i existingTab hlk
      split
      · exact (inv.replace tab existingTab hleaf hlk).2
      · split
        · exact (inv.replace tab existingTab hleaf hlk).2
        · exact (inv.skip tab).2
    · rename_i hlk
      exact inv.push tab hleaf hlk

theorem foldl_dedupStep_inv (l : List TabInfo) :
    ∀ (st : Dedup) (pre : List TabInfo), DedupInv st pre →
      DedupInv (l.foldl dedupStep st) (pre ++ l) := by
  induction l with
  | nil => intro st pre inv; simpa using inv
  | cons x xs ih =>
    intro st pre inv
    have := ih (dedupStep st x) (pre ++ [x]) (dedupStep_inv inv x)
    simpa using this

theorem dedup_inv (l : List TabInfo) :
    DedupInv (l.foldl dedupStep { uniqueTabs := [], seenLeaves := [], seenTitles := [] }) l := by
  have := foldl_dedupStep_inv l _ [] DedupInv.start
  simpa using this

theorem mem_of_mem_dedup {l : List TabInfo} {t : TabInfo} (ht : t ∈ dedup l) : t ∈ l :=
  (dedup_inv l).sub t ht

theorem dedup_leaf_nodup (l : List TabInfo) : ((dedup l).map TabInfo.leaf).Nodup :=
  (dedup_inv l).nodup

/-! ## Lemmas: the catalog as a whole -/

theorem mapM_option_isSome {α β : Type} (f : α → Option β) (l : List α)
    (hf : ∀ x ∈ l, (f x).isSome = true) : (l.mapM f).isSome = true := by
  induction l with
  | nil => rfl
  | cons x xs ih =>
    rw [List.mapM_cons]
    have hx := hf x (by simp)
    have hxs := ih (fun y hy => hf y (List.mem_cons_of_mem _ hy))
    obtain ⟨b, hb⟩ := Option.isSome_iff_exists.mp hx
    obtain ⟨bs, hbs⟩ := Option.isSome_iff_exists.mp hxs
    rw [hb, hbs]
    rfl

theorem mergeLeaves_isSome (h : Host) (hp : ∀ lf, probe (h.leaf lf) = true) (xs : List Handle) :
    ∀ leaves : List Handle, (mergeLeaves h leaves xs).isSome = true := by
  induction xs with
  | nil => intro leaves; rfl
  | cons x xs ih =>
    intro leaves
    unfold mergeLeaves
    split
    · exact ih _
    · rw [if_pos (hp x)]
      exact ih _

/-- The catalog computation returns whenever the seven by-type queries of lines 115-121 return
and no leaf raises from the calls made by the log statements. -/
theorem getTabs_returns (h : Host)
    (hq : ∀ ty ∈ baseTypes, (h.getLeavesOfType ty).isSome = true)
    (hp : ∀ lf, probe (h.leaf lf) = true) : (getTabs h).isSome = true := by
  have ht : (typedLeaves h).isSome = true := by
    unfold typedLeaves
    obtain ⟨ls, hls⟩ := Option.isSome_iff_exists.mp (mapM_option_isSome _ _ hq)
    rw [hls]
    rfl
  obtain ⟨typed, htyped⟩ := Option.isSome_iff_exists.mp ht
  have hc : (collectLeaves h).isSome = true := by
    unfold collectLeaves
    rw [htyped]
    exact mergeLeaves_isSome h hp _ _
  obtain ⟨leaves, hleaves⟩ := Option.isSome_iff_exists.mp hc
  unfold getTabs
  rw [hleaves]
  have ha : (match h.activeLeaf with
      | some a => probe (h.leaf a)
      | none => true) = true := by
    split
    · exact hp _
    · rfl
  have hall : leaves.all (fun lf => probe (h.leaf lf)) = true := by
    rw [List.all_eq_true]
    intro x _
    exact hp x
  simp [ha, hall]

/-- A returned catalog is the sorted, deduplicated candidate list. -/
theorem getTabs_eq {h : Host} {tabs : List TabInfo} (hret : getTabs h = some tabs) :
    tabs = sortBy (compareTabs h (recentFiles h)) (dedup (candidates h)) := by
  unfold getTabs at hret
  unfold candidates
  split at hret
  · exact absurd hret (by simp)
  · rename_i leaves hl
    rw [hl]
    split at hret
    · exact absurd hret (by simp)
    · split at hret
      · exact absurd hret (by simp)
      · simp only [Option.some.injEq] at hret
        exact hret.symm

theorem mem_candidates {h : Host} {t : TabInfo} (ht : t ∈ candidates h) :
    (t.type = TabType.file ∨ t.type = TabType.web) ∧ some t.leaf ≠ h.activeLeaf ∧
      getTabInfo h t.leaf = some t := by
  unfold candidates at ht
  split at ht
  · unfold allTabs at ht
    rw [List.mem_filter, List.mem_filterMap] at ht
    obtain ⟨⟨lf, hlf, hinfo⟩, hty⟩ := ht
    rw [List.mem_filter] at hlf
    have hleaf := getTabInfo_leaf hinfo
    refine ⟨by simpa using hty, ?_, by rw [hleaf]; exact hinfo⟩
    rw [hleaf]
    simpa using hlf.2
  · simp at ht

theorem mem_getTabs {h : Host} {tabs : List TabInfo} (hret : getTabs h = some tabs)
    {t : TabInfo} (ht : t ∈ tabs) : t ∈ candidates h := by
  rw [getTabs_eq hret, mem_sortBy] at ht
  exact mem_of_mem_dedup ht

theorem recentIndex_of_mem {recent : List String} {p : String} (hp : p ∈ recent) :
    recentIndex recent p = (recent.indexOf p : Int) := by
  simp [recentIndex, hp]

theorem recentIndex_of_not_mem {recent : List String} {p : String} (hp : p ∉ recent) :
    recentIndex recent p = -1 := by
  simp [recentIndex, hp]

theorem indexOf_cast_ne (recent : List String) (p : String) :
    ((recent.indexOf p : Nat) : Int) ≠ -1 := by
  omega

/-- The comparator answers "before" only for pairs in recency order. -/
theorem compareTabs_lt (h : Host) (recent : List String) (a b : TabInfo)
    (hc : compareTabs h recent a b < 0) :
    (b.path ∈ recent → a.path ∈ recent) ∧
      (a.path ∈ recent → b.path ∈ recent → recent.indexOf a.path ≤ recent.indexOf b.path) := by
  unfold compareTabs at hc
  by_cases ha : a.path ∈ recent <;> by_cases hb : b.path ∈ recent
  · rw [recentIndex_of_mem ha, recentIndex_of_mem hb] at hc
    refine ⟨fun _ => ha, fun _ _ => ?_⟩
    simp only [indexOf_cast_ne, ne_eq, not_false_eq_true, and_self, if_true] at hc
    omega
  · exact ⟨fun hb2 => absurd hb2 hb, fun _ hb2 => absurd hb2 hb⟩
  · rw [recentIndex_of_not_mem ha, recentIndex_of_mem hb] at hc
    simp [indexOf_cast_ne] at hc
  · exact ⟨fun hb2 => absurd hb2 hb, fun _ hb2 => absurd hb2 hb⟩

/-- The comparator answers "not before" only for pairs in reverse recency order. -/
theorem compareTabs_ge (h : Host) (recent : List String) (a b : TabInfo)
    (hc : ¬ compareTabs h recent a b < 0) :
    (a.path ∈ recent → b.path ∈ recent) ∧
      (b.path ∈ recent → a.path ∈ recent → recent.indexOf b.path ≤ recent.indexOf a.path) := by
  unfold compareTabs at hc
  by_cases ha : a.path ∈ recent <;> by_cases hb : b.path ∈ recent
  · rw [recentIndex_of_mem ha, recentIndex_of_mem hb] at hc
    refine ⟨fun _ => hb, fun _ _ => ?_⟩
    simp only [indexOf_cast_ne, ne_eq, not_false_eq_true, and_self, if_true] at hc
    omega
  · rw [recentIndex_of_mem ha, recentIndex_of_not_mem hb] at hc
    simp [indexOf_cast_ne] at hc
  · exact ⟨fun ha2 => absurd ha2 ha, fun _ ha2 => absurd ha2 ha⟩
  · exact ⟨fun ha2 => absurd ha2 ha, fun _ ha2 => absurd ha2 ha⟩

/-- A `file` descriptor that reached `uniqueTabs` is never replaced. -/
theorem dedupStep_keeps_file (st : Dedup) (tab f : TabInfo) (hf : f ∈ st.uniqueTabs)
    (hfk : f.type = TabType.file) : f ∈ (dedupStep st tab).uniqueTabs := by
  have hrep : ∀ (st1 : Dedup) (e : TabInfo), st1.uniqueTabs = st.uniqueTabs →
      e.type ≠ TabType.file → f ∈ (replaceExisting st1 e tab).uniqueTabs := by
    intro st1 e hst1 he
    unfold replaceExisting
    simp only
    split
    · rw [hst1]
      refine mem_set_indexOf_of_ne _ _ _ _ hf ?_
      intro hfe
      exact he (by rw [← hfe]; exact hfk)
    · rw [hst1]; exact hf
  unfold dedupStep
  split
  · exact hf
  · simp only
    split
    · rename_i e _
      split
      · rename_i hc
        refine hrep _ e rfl ?_
        simp only [Bool.and_eq_true, bne_iff_ne, ne_eq, decide_eq_true_eq] at hc
        exact hc.2
      · split
        · rename_i hc
          refine hrep _ e rfl ?_
          simp only [Bool.and_eq_true, bne_iff_ne, ne_eq, decide_eq_true_eq] at hc
          exact hc.1.2
        · exact hf
    · exact List.mem_append_left _ hf

theorem foldl_dedupStep_keeps_file (l : List TabInfo) (f : TabInfo)
    (hfk : f.type = TabType.file) :
    ∀ st : Dedup, f ∈ st.uniqueTabs → f ∈ (l.foldl dedupStep st).uniqueTabs := by
  induction l with
  | nil => intro st hf; simpa using hf
  | cons x xs ih =>
    intro st hf
    simp only [List.foldl_cons]
    exact ih _ (dedupStep_keeps_file st x f hf hfk)

/-- The first `file` descriptor with a given title is kept, provided no earlier descriptor
belongs to the same leaf. -/
theorem dedup_keeps_first_file (pre post : List TabInfo) (f : TabInfo)
    (hdet : ∀ a ∈ pre, a.leaf = f.leaf → a = f) (hfk : f.type = TabType.file)
    (hfirst : ∀ g ∈ pre, g.type = TabType.file → g.title ≠ f.title) :
    f ∈ dedup (pre ++ f :: post) := by
  unfold dedup
  rw [List.foldl_append, List.foldl_cons]
  apply foldl_dedupStep_keeps_file post f hfk
  have inv := dedup_inv pre
  generalize pre.foldl dedupStep { uniqueTabs := [], seenLeaves := [], seenTitles := [] } = st
    at inv
  have hleaf : f.leaf ∉ st.seenLeaves := by
    intro hmem
    obtain ⟨t, ht, hl⟩ := inv.seenSub _ hmem
    have htf := hdet t ht hl
    exact hfirst t ht (by rw [htf]; exact hfk) (by rw [htf])
  have hcont : st.seenLeaves.contains f.leaf = false := by simpa using hleaf
  unfold dedupStep
  rw [if_neg (by rw [hcont]; simp)]
  simp only
  split
  · rename_i e hlk
    obtain ⟨hmem, het⟩ := inv.lookupMem _ _ hlk
    have hne : e.type ≠ TabType.file := fun hty => hfirst e (inv.sub e hmem) hty het
    have hrep := (inv.replace f e hleaf hlk).1
    rw [if_pos (by simp [hfk, hne])]
    rw [hrep]
    exact List.mem_set _ _ (List.indexOf_lt_length.mpr hmem) _
  · simp

/-- Kept descriptors have pairwise distinct titles. -/
theorem dedup_title_inj {l : List TabInfo} {a b : TabInfo} (ha : a ∈ dedup l) (hb : b ∈ dedup l)
    (hab : a.title = b.title) : a = b := by
  have h1 := (dedup_inv l).memLookup a ha
  have h2 := (dedup_inv l).memLookup b hb
  rw [hab, h2] at h1
  exact (Option.some.inj h1).symm

/-- Among the candidates of a host the leaf determines the descriptor. -/
theorem candidates_det {h : Host} {a b : TabInfo} (ha : a ∈ candidates h)
    (hb : b ∈ candidates h) (hab : a.leaf = b.leaf) : a = b := by
  have h1 := (mem_candidates ha).2.2
  have h2 := (mem_candidates hb).2.2
  rw [hab, h2] at h1
  exact (Option.some.inj h1).symm

/-- A descriptor with another title, or with the same title and the same type, never
replaces a kept descriptor. -/
theorem dedupStep_keeps_same_kind {st : Dedup} {pre : List TabInfo} (inv : DedupInv st pre)
    (g c : TabInfo) (hc : c ∈ st.uniqueTabs) (hk : g.title = c.title → g.type = c.type) :
    c ∈ (dedupStep st g).uniqueTabs := by
  have hrep : ∀ (st1 : Dedup) (e : TabInfo), st1.uniqueTabs = st.uniqueTabs →
      c ≠ e → c ∈ (replaceExisting st1 e g).uniqueTabs := by
    intro st1 e hst1 hce
    unfold replaceExisting
    simp only
    split
    · rw [hst1]
      exact mem_set_indexOf_of_ne _ _ _ _ hc hce
    · rw [hst1]; exact hc
  unfold dedupStep
  split
  · exact hc
  · simp only
    split
    · rename_i e hlk
      have het := (inv.lookupMem _ _ hlk).2
      split
      · rename_i hcond
        refine hrep _ e rfl ?_
        intro hce
        simp only [Bool.and_eq_true, bne_iff_ne, ne_eq, decide_eq_true_eq] at hcond
        have hty := hk (by rw [hce]; exact het.symm)
        rw [hce] at hty
        exact hcond.2 (by rw [← hty]; exact hcond.1)
      · split
        · rename_i hcond
          refine hrep _ e rfl ?_
          intro hce
          simp only [Bool.and_eq_true, bne_iff_ne, ne_eq, decide_eq_true_eq] at hcond
          have hty := hk (by rw [hce]; exact het.symm)
          rw [hce] at hty
          exact hcond.2 (by rw [← hty]; exact hcond.1.1)
        · exact hc
    · exact List.mem_append_left _ hc

theorem foldl_dedupStep_keeps_same_kind (post : List TabInfo) (c : TabInfo) :
    ∀ (st : Dedup) (pre : List TabInfo), DedupInv st pre →
      (∀ g ∈ post, g.title = c.title → g.type = c.type) → c ∈ st.uniqueTabs →
      c ∈ (post.foldl dedupStep st).uniqueTabs := by
  induction post with
  | nil => intro st pre _ _ hc; simpa using hc
  | cons x xs ih =>
    intro st pre inv hk hc
    simp only [List.foldl_cons]
    exact ih (dedupStep st x) (pre ++ [x]) (dedupStep_inv inv x)
      (fun g hg => hk g (List.mem_cons_of_mem _ hg))
      (dedupStep_keeps_same_kind inv x c hc (hk x (by simp)))

/-- The first descriptor with a given title is kept when every later descriptor with that
title has its type, provided no earlier descriptor belongs to the same leaf. -/
theorem dedup_keeps_first_of_kind (pre post : List TabInfo) (c : TabInfo)
    (hdet : ∀ a ∈ pre, a.leaf = c.leaf → a = c)
    (hfirst : ∀ g ∈ pre, g.title ≠ c.title)
    (hsame : ∀ g ∈ post, g.title = c.title → g.type = c.type) :
    c ∈ dedup (pre ++ c :: post) := by
  unfold dedup
  rw [List.foldl_append, List.foldl_cons]
  have inv := dedup_inv pre
  generalize pre.foldl dedupStep { uniqueTabs := [], seenLeaves := [], seenTitles := [] } = st
    at inv
  refine foldl_dedupStep_keeps_same_kind post c _ (pre ++ [c]) (dedupStep_inv inv c) hsame ?_
  have hleaf : c.leaf ∉ st.seenLeaves := by
    intro hmem
    obtain ⟨t, ht, hl⟩ := inv.seenSub _ hmem
    have htc := hdet t ht hl
    exact hfirst t ht (by rw [htc])
  have hcont : st.seenLeaves.contains c.leaf = false := by simpa using hleaf
  unfold dedupStep
  rw [if_neg (by rw [hcont]; simp)]
  simp only
  split
  · rename_i e hlk
    obtain ⟨hmem, het⟩ := inv.lookupMem _ _ hlk
    exact absurd het (hfirst e (inv.sub e hmem))
  · simp

theorem dedup_title_nodup (l : List TabInfo) : ((dedup l).map TabInfo.title).Nodup := by
  refine List.Nodup.map_on ?_ (List.Nodup.of_map _ (dedup_leaf_nodup l))
  intro a ha b hb hab
  exact dedup_title_inj ha hb hab

/-- A descriptor of type `file` returned by `getTabInfo` is built from a file. -/
theorem getTabInfo_file_shape {h : Host} {lf : Handle} {t : TabInfo}
    (ht : getTabInfo h lf = some t) (hty : t.type = TabType.file) :
    ∃ f : TFile, t = fileTab lf f := by
  unfold getTabInfo at ht
  simp only at ht
  split at ht
  · rw [(otherTab_leaf ht).2] at hty
    exact absurd hty (by simp)
  · split at ht
    · rename_i f _
      exact ⟨f, (Option.some.inj ht).symm⟩
    · split at ht
      · exact absurd ht (by simp)
      · split at ht
        · rename_i f _
          exact ⟨f, (Option.some.inj ht).symm⟩
        · split at ht
          · exact absurd ht (by simp)
          · rename_i hw
            simp only [Option.some.injEq] at ht
            subst ht
            rw [(webTab_leaf hw).2] at hty
            exact absurd hty (by simp)
          · rw [(otherTab_leaf ht).2] at hty
            exact absurd hty (by simp)

/-- A leaf whose view exposes a file is classified from that file alone. -/
theorem getTabInfo_of_file (h : Host) (lf : Handle) (v : View) (f : TFile)
    (hv : (h.leaf lf).view = some v) (hf : v.file = some f) :
    getTabInfo h lf = some (fileTab lf f) := by
  unfold getTabInfo
  simp only [hv, hf]

/-! ## Lemmas: the comparator -/

theorem compareTabs_in_in (h : Host) (recent : List String) (a b : TabInfo)
    (ha : a.path ∈ recent) (hb : b.path ∈ recent) :
    compareTabs h recent a b =
      (recent.indexOf a.path : Int) - (recent.indexOf b.path : Int) := by
  unfold compareTabs
  rw [recentIndex_of_mem ha, recentIndex_of_mem hb]
  simp [indexOf_cast_ne]

theorem compareTabs_in_out (h : Host) (recent : List String) (a b : TabInfo)
    (ha : a.path ∈ recent) (hb : b.path ∉ recent) : compareTabs h recent a b = -1 := by
  unfold compareTabs
  rw [recentIndex_of_mem ha, recentIndex_of_not_mem hb]
  simp [indexOf_cast_ne]

theorem compareTabs_out_in (h : Host) (recent : List String) (a b : TabInfo)
    (ha : a.path ∉ recent) (hb : b.path ∈ recent) : compareTabs h recent a b = 1 := by
  unfold compareTabs
  rw [recentIndex_of_not_mem ha, recentIndex_of_mem hb]
  simp [indexOf_cast_ne]

theorem compareTabs_out_out (h : Host) (recent : List String) (a b : TabInfo)
    (ha : a.path ∉ recent) (hb : b.path ∉ recent) :
    compareTabs h recent a b =
      if a.type = TabType.file ∧ b.type = TabType.file then mtimeOf b - mtimeOf a
      else h.localeCompare a.title b.title := by
  unfold compareTabs
  rw [recentIndex_of_not_mem ha, recentIndex_of_not_mem hb]
  simp

/-- The code-point comparison of the example hosts is transitive. -/
theorem compareChars_trans : ∀ x y z : List Char,
    compareChars x y ≤ 0 → compareChars y z ≤ 0 → compareChars x z ≤ 0 := by
  intro x
  induction x with
  | nil =>
    intro y z _ _
    cases z <;> simp [compareChars]
  | cons a as ih =>
    intro y z hxy hyz
    cases y with
    | nil => simp [compareChars] at hxy
    | cons b bs =>
      cases z with
      | nil => simp [compareChars] at hyz
      | cons c cs =>
        simp only [compareChars] at hxy hyz ⊢
        split_ifs at hxy hyz ⊢ <;> first | omega | exact ih bs cs hxy hyz

/-! ## The catalog: claims -/

/-- C1: whatever the by-type queries, the tree walk and the tab headers of the host yield, in
any order and with any repetitions, a catalog returned by `getTabs` holds each leaf handle at
most once. -/
theorem getTabs_handles_nodup (h : Host) (tabs : List TabInfo) (hret : getTabs h = some tabs) :
    (tabs.map TabInfo.leaf).Nodup := by
  rw [getTabs_eq hret]
  exact ((sortBy_perm _ _).map TabInfo.leaf).nodup_iff.mpr (dedup_leaf_nodup _)

/-- Witness for C1 on a host whose mechanisms overlap: leaf 1 is yielded three times, leaves 0
and 2 twice each. -/
theorem getTabs_handles_nodup_witness :
    getTabs hostOverlap = some hostOverlapTabs ∧ (hostOverlapTabs.map TabInfo.leaf).Nodup :=
  ⟨by decide, getTabs_handles_nodup hostOverlap hostOverlapTabs (by decide)⟩

/-- C2, as amended: when a `file` descriptor `f` and a `web` descriptor `w` among the candidates
have the same title, in whatever enumeration order, the returned catalog does not contain `w`,
every entry it has under that title is of type `file`, it does retain a `file` descriptor with
that title, and it retains `f` itself whenever no `file` descriptor with that title is
enumerated before `f`. -/
theorem getTabs_title_collision (h : Host) (tabs : List TabInfo) (hret : getTabs h = some tabs)
    (f w : TabInfo) (hf : f ∈ candidates h) (_hw : w ∈ candidates h)
    (hfk : f.type = TabType.file) (hwk : w.type = TabType.web) (htitle : f.title = w.title) :
    w ∉ tabs ∧
    (∀ t ∈ tabs, t.title = f.title → t.type = TabType.file) ∧
    (∃ g ∈ tabs, g.type = TabType.file ∧ g.title = f.title) ∧
    (∀ pre post : List TabInfo, candidates h = pre ++ f :: post →
      (∀ g ∈ pre, g.type = TabType.file → g.title ≠ f.title) → f ∈ tabs) := by
  have hmem : ∀ t, t ∈ tabs ↔ t ∈ dedup (candidates h) := by
    intro t
    rw [getTabs_eq hret, mem_sortBy]
  have hkeep : ∀ (g : TabInfo) (pre post : List TabInfo), candidates h = pre ++ g :: post →
      g.type = TabType.file → (∀ x ∈ pre, x.type = TabType.file → x.title ≠ g.title) →
      g ∈ tabs := by
    intro g pre post hsplit hgk hfirst
    rw [hmem, hsplit]
    refine dedup_keeps_first_file pre post g ?_ hgk hfirst
    intro a ha hag
    refine @candidates_det h a g ?_ ?_ hag
    · rw [hsplit]; exact List.mem_append_left _ ha
    · rw [hsplit]; simp
  -- the first `file` candidate with the title of `f`
  have hfind : ∃ g, (candidates h).find?
      (fun g => decide (g.type = TabType.file ∧ g.title = f.title)) = some g := by
    cases hfd : (candidates h).find?
        (fun g => decide (g.type = TabType.file ∧ g.title = f.title)) with
    | some g => exact ⟨g, rfl⟩
    | none =>
      rw [List.find?_eq_none] at hfd
      exact absurd (by simp [hfk]) (hfd f hf)
  obtain ⟨g, hg⟩ := hfind
  rw [List.find?_eq_some] at hg
  obtain ⟨hgp, pre, post, hsplit, hpre⟩ := hg
  simp only [decide_eq_true_eq] at hgp
  have hgt : g ∈ tabs := by
    refine hkeep g pre post hsplit hgp.1 ?_
    intro x hx hxk hxt
    have := hpre x hx
    simp [hxk, hxt, hgp.2] at this
  have hall : ∀ t ∈ tabs, t.title = f.title → t = g := by
    intro t ht htt
    exact dedup_title_inj ((hmem t).mp ht) ((hmem g).mp hgt) (by rw [htt, hgp.2])
  refine ⟨?_, ?_, ⟨g, hgt, hgp.1, hgp.2⟩, ?_⟩
  · intro hwt
    have hwg := hall w hwt htitle.symm
    rw [hwg, hgp.1] at hwk
    exact absurd hwk (by simp)
  · intro t ht htt
    rw [hall t ht htt]
    exact hgp.1
  · intro pre2 post2 hsplit2 hfirst2
    exact hkeep f pre2 post2 hsplit2 hfk hfirst2

/-- Witness for the amended C2: the web page is enumerated first, the note replaces it. -/
theorem getTabs_title_collision_witness :
    getTabs hostWebFirst = some [indexNoteA 1] ∧
    candidates hostWebFirst = [indexPage 0, indexNoteA 1] ∧
    indexPage 0 ∉ [indexNoteA 1] ∧ indexNoteA 1 ∈ [indexNoteA 1] :=
  have key := getTabs_title_collision hostWebFirst [indexNoteA 1] (by decide)
    (indexNoteA 1) (indexPage 0) (by decide) (by decide) rfl rfl rfl
  ⟨by decide, by decide, key.1, key.2.2.2 [indexPage 0] [] (by decide) (by decide)⟩

/-- C2 as stated fails: the candidates are the note `a/index.md`, the web page `index` and the
note `b/index.md`, in this order.  The note `b/index.md` is a `file` descriptor with the title
of the `web` descriptor, on a different leaf, neither of them active, and the catalog does not
retain it: the first note with that title is kept. -/
theorem getTabs_title_collision_counterexample :
    candidates hostTitleClash = [indexNoteA 0, indexPage 1, indexNoteB 2] ∧
    (indexNoteB 2).type = TabType.file ∧ (indexPage 1).type = TabType.web ∧
    (indexNoteB 2).title = (indexPage 1).title ∧
    (indexNoteB 2).leaf ≠ (indexPage 1).leaf ∧
    some (indexNoteB 2).leaf ≠ hostTitleClash.activeLeaf ∧
    some (indexPage 1).leaf ≠ hostTitleClash.activeLeaf ∧
    getTabs hostTitleClash = some [indexNoteA 0] ∧
    indexNoteB 2 ∉ [indexNoteA 0] := by
  decide

/-- C3: in a catalog returned by `getTabs`, a descriptor whose `path` occurs in the recency
list never comes after one whose `path` does not, and descriptors whose paths occur in the list
come in ascending order of their position in it (strictly ascending for distinct paths). -/
theorem getTabs_recency_order (h : Host) (tabs : List TabInfo) (hret : getTabs h = some tabs) :
    tabs.Pairwise (fun a b =>
      (b.path ∈ recentFiles h → a.path ∈ recentFiles h) ∧
      (a.path ∈ recentFiles h → b.path ∈ recentFiles h →
        (recentFiles h).indexOf a.path ≤ (recentFiles h).indexOf b.path ∧
        (a.path ≠ b.path → (recentFiles h).indexOf a.path < (recentFiles h).indexOf b.path))) := by
  rw [getTabs_eq hret]
  have hp := sortBy_pairwise (compareTabs h (recentFiles h))
    (fun a b =>
      (b.path ∈ recentFiles h → a.path ∈ recentFiles h) ∧
      (a.path ∈ recentFiles h → b.path ∈ recentFiles h →
        (recentFiles h).indexOf a.path ≤ (recentFiles h).indexOf b.path))
    (fun a b c hab hbc =>
      ⟨fun hc => hab.1 (hbc.1 hc),
       fun ha hc => le_trans (hab.2 ha (hbc.1 hc)) (hbc.2 (hbc.1 hc) hc)⟩)
    (fun a b hc => compareTabs_lt h _ a b hc)
    (fun a b hc => compareTabs_ge h _ a b hc)
    (dedup (candidates h))
  refine hp.imp ?_
  intro a b hab
  refine ⟨hab.1, fun ha hb => ⟨hab.2 ha hb, fun hne => ?_⟩⟩
  refine lt_of_le_of_ne (hab.2 ha hb) ?_
  intro heq
  exact hne ((List.indexOf_inj ha hb).mp heq)

/-- Witness for C3, the example of the specification: recency list `[p2, p1]`, notes `p1`,
`p2`, `p3` with `p3` absent from the list and the newest; the catalog is `p2, p1, p3`. -/
theorem getTabs_recency_order_witness :
    getTabs hostRecency = some hostRecencyTabs ∧
    hostRecencyTabs.map TabInfo.path = ["p2", "p1", "p3"] ∧
    hostRecencyTabs.Pairwise (fun a b =>
      (b.path ∈ recentFiles hostRecency → a.path ∈ recentFiles hostRecency) ∧
      (a.path ∈ recentFiles hostRecency → b.path ∈ recentFiles hostRecency →
        (recentFiles hostRecency).indexOf a.path ≤ (recentFiles hostRecency).indexOf b.path ∧
        (a.path ≠ b.path →
          (recentFiles hostRecency).indexOf a.path < (recentFiles hostRecency).indexOf b.path))) :=
  ⟨by decide, by decide, getTabs_recency_order hostRecency hostRecencyTabs (by decide)⟩

/-- C4: every descriptor of a catalog returned by `getTabs` has type `file` or `web`, never
`other`, and its leaf is not the active leaf of the host. -/
theorem getTabs_switchable_not_active (h : Host) (tabs : List TabInfo)
    (hret : getTabs h = some tabs) :
    ∀ t ∈ tabs, (t.type = TabType.file ∨ t.type = TabType.web) ∧ t.type ≠ TabType.other ∧
      some t.leaf ≠ h.activeLeaf := by
  intro t ht
  have hc := mem_candidates (mem_getTabs hret ht)
  refine ⟨hc.1, ?_, hc.2.1⟩
  rcases hc.1 with h1 | h1 <;> simp [h1]

/-- Witness for C4: four open leaves, the first one active; the catalog holds the other three. -/
theorem getTabs_switchable_not_active_witness :
    getTabs hostNotes = some hostNotesTabs ∧
    ∀ t ∈ hostNotesTabs, (t.type = TabType.file ∨ t.type = TabType.web) ∧
      t.type ≠ TabType.other ∧ some t.leaf ≠ hostNotes.activeLeaf :=
  ⟨by decide, getTabs_switchable_not_active hostNotes hostNotesTabs (by decide)⟩

/-! ## Lemmas: the switcher -/

theorem thenPrevent_state (r : Run) : r.thenPrevent.state = r.state := by
  unfold Run.thenPrevent
  split <;> rfl

theorem thenPrevent_activated (r : Run) : r.thenPrevent.activated = r.activated := by
  unfold Run.thenPrevent
  split <;> rfl

theorem thenPrevent_raised (r : Run) : r.thenPrevent.raised = r.raised := by
  unfold Run.thenPrevent
  split <;> simp_all

/-- Whatever the catalog computation does, a hidden overlay becomes visible with the
selection at 0. -/
theorem showTabBar_state (h : Host) (s : Switcher) :
    (showTabBar h s).state =
      if s.isVisible then s
      else { s with isVisible := true, currentIndex := 0, originalIndex := some 0 } := by
  unfold showTabBar
  split
  · rfl
  · simp only
    split <;> rfl

theorem showTabBar_activated (h : Host) (s : Switcher) : (showTabBar h s).activated = [] := by
  unfold showTabBar
  split
  · rfl
  · simp only
    split <;> rfl

/-- With the overlay visible and the catalog computed, `switchToSelectedTab` looks the
selection up, issues the activation when an entry is there, and hides the overlay. -/
theorem switchToSelectedTab_visible (h : Host) (s : Switcher) (tabs : List TabInfo)
    (hret : getTabs h = some tabs) (hvis : s.isVisible = true) :
    switchToSelectedTab h s =
      match arrayAt tabs s.currentIndex with
      | some selectedTab =>
        { state := hideTabBar s, activated := [selectedTab.leaf], prevented := false,
          raised := false }
      | none => Run.done (hideTabBar s) := by
  unfold switchToSelectedTab
  simp [hvis, hret]

/-- In single-key mode, from a hidden and unlatched switcher, the overlay is visible after a
key-down exactly when the event is for the switch key and passes `isOnlySingleKeyPressed`. -/
theorem handleKeyDown_single_visible (cfg : Settings) (h : Host) (s : Switcher)
    (event : KeyEvent) (hmode : cfg.useComboKeys = false) (hhid : s.isVisible = false)
    (hlatch : s.keyPressed = false) :
    (handleKeyDown cfg h s event).state.isVisible =
      (decide (event.key = cfg.switchKey) && isOnlySingleKeyPressed cfg event) := by
  unfold handleKeyDown
  simp only [hmode, Bool.false_eq_true, if_false]
  have hk : (updateComboKeyState s event true).keyPressed = false := hlatch
  have hv : (updateComboKeyState s event true).isVisible = false := hhid
  split
  · rename_i hc
    rw [thenPrevent_state, hk]
    simp only [Bool.not_false, if_true]
    rw [showTabBar_state]
    simp only [hv, Bool.false_eq_true, if_false]
    exact hc.symm
  · rename_i hc
    rw [hv]
    simp only [Bool.false_and, Bool.false_eq_true, if_false, Run.done]
    rw [hv]
    simpa using hc

/-- Releasing a key in combo mode while the latch is set: every recorded modifier is cleared,
so a setting that requires some modifier is no longer satisfied and the selection is
activated. -/
theorem handleKeyUp_combo_latched (cfg : Settings) (h : Host) (s : Switcher) (event : KeyEvent)
    (hmode : cfg.useComboKeys = true) (hact : s.comboKeysActive = true) :
    handleKeyUp cfg h s event =
      switchToSelectedTab h
        { updateComboKeyState s event false with comboKeysActive := false } := by
  unfold handleKeyUp
  simp only [hmode, if_true]
  have hreq : isComboKeysPressed cfg (updateComboKeyState s event false) = false := by
    simp only [isComboKeysPressed, updateComboKeyState]
    cases cfg.comboKeys.cmd <;> cases cfg.comboKeys.ctrl <;> cases cfg.comboKeys.alt <;>
      cases cfg.comboKeys.shift <;> simp
  have ha : (updateComboKeyState s event false).comboKeysActive = true := hact
  rw [hreq, ha]
  simp

/-- The truncating remainder of a non-negative dividend by a positive divisor lies in
`[0, n)`. -/
theorem tmod_range {a n : Int} (ha : 0 ≤ a) (hn : 0 < n) :
    0 ≤ Int.tmod a n ∧ Int.tmod a n < n := by
  rw [Int.tmod_eq_emod ha (le_of_lt hn)]
  exact ⟨Int.emod_nonneg a (ne_of_gt hn), Int.emod_lt_of_pos a hn⟩

/-- With the overlay visible and a catalog of at least one entry, `moveSelection` stores the
remainder of lines 772/774 and touches nothing else. -/
theorem moveSelection_visible (h : Host) (s : Switcher) (tabs : List TabInfo)
    (direction : Direction) (hret : getTabs h = some tabs) (hN : 1 ≤ tabs.length)
    (hvis : s.isVisible = true) :
    moveSelection h s direction =
      Run.done { s with
        currentIndex :=
          if direction = Direction.left then
            Int.tmod (s.currentIndex - 1 + (tabs.length : Int)) (tabs.length : Int)
          else Int.tmod (s.currentIndex + 1) (tabs.length : Int) } := by
  have hlen : tabs.length ≠ 0 := by omega
  unfold moveSelection
  simp only [hvis, hret, hlen, Bool.not_true, Bool.false_eq_true, if_false]
  split <;> rfl

/-- The catalog never holds the active leaf, so the search of lines 793-799 finds nothing and
`returnToCurrentTabPosition` leaves the switcher as it was. -/
theorem returnToCurrentTabPosition_state (h : Host) (s : Switcher) :
    (returnToCurrentTabPosition h s).state = s := by
  unfold returnToCurrentTabPosition
  split
  · rfl
  · split
    · rfl
    · rename_i tabs hret
      have hnone : tabs.findIdx? (fun t => some t.leaf == h.activeLeaf) = none := by
        rw [List.findIdx?_eq_none_iff]
        intro t ht
        have := (mem_candidates (mem_getTabs hret ht)).2.1
        simpa using this
      rw [hnone]
      rfl

theorem showTabBar_inRange {N : Nat} (h : Host) (s : Switcher) (hs : InRange N s) :
    InRange N (showTabBar h s).state := by
  rw [showTabBar_state]
  split
  · exact hs
  · exact ⟨le_refl _, fun hN => by
      show (0 : Int) < N
      omega⟩

theorem moveSelection_inRange {N : Nat} (h : Host) (s : Switcher) (direction : Direction)
    (hh : SizedHost N h) (hs : InRange N s) :
    InRange N (moveSelection h s direction).state := by
  cases hv : s.isVisible with
  | false =>
    have : moveSelection h s direction = Run.done s := by
      unfold moveSelection
      simp [hv]
    rw [this]
    exact hs
  | true =>
    cases hret : getTabs h with
    | none =>
      have : moveSelection h s direction = Run.fail s := by
        unfold moveSelection
        simp [hv, hret]
      rw [this]
      exact hs
    | some tabs =>
      by_cases hlen : tabs.length = 0
      · have : moveSelection h s direction = Run.done s := by
          unfold moveSelection
          simp [hv, hret, hlen]
        rw [this]
        exact hs
      · rw [moveSelection_visible h s tabs direction hret (by omega) hv]
        have hpos : (0 : Int) < (tabs.length : Int) := by omega
        have hb : ∀ a : Int, 0 ≤ a →
            InRange N { s with currentIndex := Int.tmod a (tabs.length : Int) } := by
          intro a ha
          have hr := tmod_range ha hpos
          refine ⟨hr.1, fun hN => ?_⟩
          show Int.tmod a (tabs.length : Int) < N
          rcases hh tabs hret with h0 | hl
          · exact absurd h0 hN
          · rw [← hl]; exact hr.2
        simp only [Run.done]
        split
        · exact hb _ (by have := hs.1; omega)
        · exact hb _ (by have := hs.1; omega)

theorem switchToSelectedTab_index (h : Host) (s : Switcher) :
    (switchToSelectedTab h s).state.currentIndex = s.currentIndex := by
  unfold switchToSelectedTab
  split
  · rfl
  · split
    · rfl
    · split
      · simp only [hideTabBar]
        split <;> rfl
      · simp only [hideTabBar, Run.done]
        split <;> rfl

theorem handleKeyDown_inRange {N : Nat} (cfg : Settings) (h : Host) (s : Switcher)
    (event : KeyEvent) (hh : SizedHost N h) (hs : InRange N s) :
    InRange N (handleKeyDown cfg h s event).state := by
  have h1 : InRange N (updateComboKeyState s event true) := hs
  unfold handleKeyDown
  simp only
  split
  · split
    · split
      · rw [thenPrevent_state]
        exact showTabBar_inRange h _ h1
      · split
        · rw [thenPrevent_state]
          exact moveSelection_inRange h _ _ hh h1
        · split
          · rw [thenPrevent_state]
            exact moveSelection_inRange h _ _ hh h1
          · exact h1
    · exact h1
  · split
    · rw [thenPrevent_state]
      split
      · exact showTabBar_inRange h _ h1
      · exact h1
    · split
      · split
        · rw [thenPrevent_state]
          split
          · rw [returnToCurrentTabPosition_state]
            exact h1
          · exact moveSelection_inRange h _ _ hh h1
        · split
          · rw [thenPrevent_state]
            exact moveSelection_inRange h _ _ hh h1
          · exact h1
      · exact h1

theorem handleKeyUp_index (cfg : Settings) (h : Host) (s : Switcher) (event : KeyEvent) :
    (handleKeyUp cfg h s event).state.currentIndex = s.currentIndex := by
  unfold handleKeyUp
  simp only
  split
  · split
    · rw [switchToSelectedTab_index]
      rfl
    · rfl
  · split
    · rw [switchToSelectedTab_index]
      rfl
    · rfl

theorem dispatch_inRange {N : Nat} (cfg : Settings) (h : Host) (s : Switcher)
    (input : KeyInput) (hh : SizedHost N h) (hs : InRange N s) :
    InRange N (dispatch cfg h s input).state := by
  cases input with
  | down event => exact handleKeyDown_inRange cfg h s event hh hs
  | up event =>
    unfold InRange
    show 0 ≤ (handleKeyUp cfg h s event).state.currentIndex ∧
      (N ≠ 0 → (handleKeyUp cfg h s event).state.currentIndex < N)
    rw [handleKeyUp_index]
    exact hs

theorem runEvents_inRange {N : Nat} (cfg : Settings) (trace : List (Host × KeyInput)) :
    ∀ s : Switcher, (∀ x ∈ trace, SizedHost N x.1) → InRange N s →
      InRange N (runEvents cfg s trace) := by
  induction trace with
  | nil => intro s _ hs; exact hs
  | cons x rest ih =>
    intro s hh hs
    obtain ⟨h, input⟩ := x
    unfold runEvents
    exact ih _ (fun y hy => hh y (List.mem_cons_of_mem _ hy))
      (dispatch_inRange cfg h s input (hh (h, input) (by simp)) hs)

/-! ## The switcher: claims -/

/-- C5: with a catalog of `N >= 1` entries, the overlay visible and the selection `i` in
`[0, N)`, `moveSelection('left')` sets the selection to `(i - 1 + N) mod N` and
`moveSelection('right')` to `(i + 1) mod N`, changing nothing else; from 0 the left move gives
`N - 1` and from `N - 1` the right move gives 0. -/
theorem moveSelection_wraps (h : Host) (s : Switcher) (tabs : List TabInfo)
    (hret : getTabs h = some tabs) (hN : 1 ≤ tabs.length) (hvis : s.isVisible = true)
    (h0 : 0 ≤ s.currentIndex) (hlt : s.currentIndex < tabs.length) :
    moveSelection h s Direction.left =
      Run.done { s with
        currentIndex := (s.currentIndex - 1 + (tabs.length : Int)) % (tabs.length : Int) } ∧
    moveSelection h s Direction.right =
      Run.done { s with currentIndex := (s.currentIndex + 1) % (tabs.length : Int) } ∧
    (s.currentIndex = 0 →
      (moveSelection h s Direction.left).state.currentIndex = (tabs.length : Int) - 1) ∧
    (s.currentIndex = (tabs.length : Int) - 1 →
      (moveSelection h s Direction.right).state.currentIndex = 0) ∧
    (0 < s.currentIndex →
      (moveSelection h s Direction.left).state.currentIndex = s.currentIndex - 1) ∧
    (s.currentIndex < (tabs.length : Int) - 1 →
      (moveSelection h s Direction.right).state.currentIndex = s.currentIndex + 1) := by
  have hlen : tabs.length ≠ 0 := by omega
  have hl : moveSelection h s Direction.left =
      Run.done { s with
        currentIndex := (s.currentIndex - 1 + (tabs.length : Int)) % (tabs.length : Int) } := by
    unfold moveSelection
    simp only [hvis, hret, hlen, Bool.not_true, Bool.false_eq_true, if_false, if_true]
    rw [Int.tmod_eq_emod (by omega) (by omega)]
  have hr : moveSelection h s Direction.right =
      Run.done { s with currentIndex := (s.currentIndex + 1) % (tabs.length : Int) } := by
    unfold moveSelection
    simp only [hvis, hret, hlen, Bool.not_true, Bool.false_eq_true, if_false]
    rw [if_neg (by decide)]
    rw [Int.tmod_eq_emod (by omega) (by omega)]
  refine ⟨hl, hr, ?_, ?_, ?_, ?_⟩
  · intro hi
    rw [hl, hi]
    simp only [Run.done]
    exact Int.emod_eq_of_lt (by omega) (by omega)
  · intro hi
    rw [hr, hi]
    simp only [Run.done]
    rw [Int.sub_add_cancel]
    exact Int.emod_self
  · intro hi
    rw [hl]
    simp only [Run.done]
    rw [Int.add_emod_self]
    exact Int.emod_eq_of_lt (by omega) (by omega)
  · intro hi
    rw [hr]
    simp only [Run.done]
    exact Int.emod_eq_of_lt (by omega) (by omega)

/-- Witness for C5, the example of the specification with `N = 3`: left from 0 gives 2, right
from 2 gives 0. -/
theorem moveSelection_wraps_witness :
    getTabs hostNotes = some hostNotesTabs ∧ hostNotesTabs.length = 3 ∧
    (moveSelection hostNotes (shownAt 0) Direction.left).state.currentIndex = 2 ∧
    (moveSelection hostNotes (shownAt 2) Direction.right).state.currentIndex = 0 :=
  ⟨by decide, rfl,
   (moveSelection_wraps hostNotes (shownAt 0) hostNotesTabs (by decide) (by decide) rfl
      (by decide) (by decide)).2.2.1 rfl,
   (moveSelection_wraps hostNotes (shownAt 2) hostNotesTabs (by decide) (by decide) rfl
      (by decide) (by decide)).2.2.2.1 rfl⟩

/-- C6: in single-key mode, from a hidden and unlatched switcher, with the switch key one of
`Alt`, `Control`, `Meta`: a key-down of the switch key that reports another modifier as
pressed does not show the overlay when `strictSingleKeyMode` is on; a key-down of the switch
key shows it when `strictSingleKeyMode` is off; and with the strict mode on the overlay is
shown exactly when the event key is the switch key and none of the other three modifier flags
is set. -/
theorem singleKey_strict_mode (cfg : Settings) (h : Host) (s : Switcher) (event : KeyEvent)
    (hmode : cfg.useComboKeys = false)
    (hkey : cfg.switchKey = "Alt" ∨ cfg.switchKey = "Control" ∨ cfg.switchKey = "Meta")
    (hhid : s.isVisible = false) (hlatch : s.keyPressed = false) :
    (cfg.strictSingleKeyMode = true → event.key = cfg.switchKey →
      otherModifierHeld cfg.switchKey event = true →
      (handleKeyDown cfg h s event).state.isVisible = false) ∧
    (cfg.strictSingleKeyMode = false → event.key = cfg.switchKey →
      (handleKeyDown cfg h s event).state.isVisible = true) ∧
    (cfg.strictSingleKeyMode = true →
      ((handleKeyDown cfg h s event).state.isVisible = true ↔
        event.key = cfg.switchKey ∧ otherModifierHeld cfg.switchKey event = false)) := by
  rw [handleKeyDown_single_visible cfg h s event hmode hhid hlatch]
  obtain ⟨key, mk, ck, ak, sk⟩ := event
  obtain ⟨switchKey, useCombo, strict, combo⟩ := cfg
  simp only at hkey
  simp only [isOnlySingleKeyPressed, checkStrictSingleKey, otherModifierHeld]
  rcases hkey with hk | hk | hk <;> subst hk <;>
    cases strict <;> cases mk <;> cases ck <;> cases ak <;> cases sk <;> simp

/-- Witness for C6, the example of the specification: switch key `Alt`, a key-down of `Alt`
with `Control` held; hidden under the strict mode, shown without it. -/
theorem singleKey_strict_mode_witness :
    otherModifierHeld "Alt" (modifierEvent Modifier.alt [Modifier.alt, Modifier.ctrl]) = true ∧
    (handleKeyDown (singleKeySettings "Alt" true) hostNotes Switcher.initial
      (modifierEvent Modifier.alt [Modifier.alt, Modifier.ctrl])).state.isVisible = false ∧
    (handleKeyDown (singleKeySettings "Alt" false) hostNotes Switcher.initial
      (modifierEvent Modifier.alt [Modifier.alt, Modifier.ctrl])).state.isVisible = true :=
  ⟨by decide,
   (singleKey_strict_mode (singleKeySettings "Alt" true) hostNotes Switcher.initial
      (modifierEvent Modifier.alt [Modifier.alt, Modifier.ctrl]) rfl (Or.inl rfl) rfl rfl).1
      rfl rfl (by decide),
   (singleKey_strict_mode (singleKeySettings "Alt" false) hostNotes Switcher.initial
      (modifierEvent Modifier.alt [Modifier.alt, Modifier.ctrl]) rfl (Or.inl rfl) rfl rfl).2.1
      rfl rfl⟩

/-- C7: in combo mode with exactly two required modifiers `m1` and `m2`, from the initial
state: the key-down of `m1` alone leaves the overlay hidden; the following key-down of `m2`
with `m1` held shows the overlay with the selection at 0; the following key-up of `m2` with `m1`
still held, when the catalog computation returns `tabs`, hides the overlay and asks the host
to activate the leaf of the entry of `tabs` at the selection, the first entry (nothing when
`tabs` is empty). -/
theorem combo_latch (cfg : Settings) (m1 m2 : Modifier) (h1 h2 h3 : Host)
    (hmode : cfg.useComboKeys = true) (hreq : cfg.comboKeys = requiredOf [m1, m2])
    (hne : m1 ≠ m2) :
    (handleKeyDown cfg h1 Switcher.initial (modifierEvent m1 [m1])).state.isVisible = false ∧
    (handleKeyDown cfg h1 Switcher.initial (modifierEvent m1 [m1])).activated = [] ∧
    (handleKeyDown cfg h2
      (handleKeyDown cfg h1 Switcher.initial (modifierEvent m1 [m1])).state
      (modifierEvent m2 [m1, m2])).state.isVisible = true ∧
    (handleKeyDown cfg h2
      (handleKeyDown cfg h1 Switcher.initial (modifierEvent m1 [m1])).state
      (modifierEvent m2 [m1, m2])).state.currentIndex = 0 ∧
    (∀ tabs : List TabInfo, getTabs h3 = some tabs →
      (handleKeyUp cfg h3
        (handleKeyDown cfg h2
          (handleKeyDown cfg h1 Switcher.initial (modifierEvent m1 [m1])).state
          (modifierEvent m2 [m1, m2])).state
        (modifierEvent m2 [m1])).state.isVisible = false ∧
      (handleKeyUp cfg h3
        (handleKeyDown cfg h2
          (handleKeyDown cfg h1 Switcher.initial (modifierEvent m1 [m1])).state
          (modifierEvent m2 [m1, m2])).state
        (modifierEvent m2 [m1])).raised = false ∧
      (handleKeyUp cfg h3
        (handleKeyDown cfg h2
          (handleKeyDown cfg h1 Switcher.initial (modifierEvent m1 [m1])).state
          (modifierEvent m2 [m1, m2])).state
        (modifierEvent m2 [m1])).activated = (tabs.head?.map TabInfo.leaf).toList) := by
  -- first event: the pair is not complete
  have e1 : handleKeyDown cfg h1 Switcher.initial (modifierEvent m1 [m1]) =
      Run.done (updateComboKeyState Switcher.initial (modifierEvent m1 [m1]) true) := by
    unfold handleKeyDown
    have : isComboKeysPressed cfg
        (updateComboKeyState Switcher.initial (modifierEvent m1 [m1]) true) = false := by
      unfold isComboKeysPressed
      rw [hreq]
      cases m1 <;> cases m2 <;> first | exact absurd rfl hne | decide
    simp [this, hmode]
  -- second event: the pair is complete and the latch is not set
  have e2 : (handleKeyDown cfg h2
        (updateComboKeyState Switcher.initial (modifierEvent m1 [m1]) true)
        (modifierEvent m2 [m1, m2])).state =
      { currentIndex := 0
        originalIndex := some 0
        isVisible := true
        keyPressed := false
        comboKeysPressed := requiredOf [m1, m2]
        comboKeysActive := true } := by
    unfold handleKeyDown
    have : isComboKeysPressed cfg
        (updateComboKeyState
          (updateComboKeyState Switcher.initial (modifierEvent m1 [m1]) true)
          (modifierEvent m2 [m1, m2]) true) = true := by
      unfold isComboKeysPressed
      rw [hreq]
      cases m1 <;> cases m2 <;> first | exact absurd rfl hne | decide
    simp only [if_true, this, hmode]
    rw [if_pos (by rfl), thenPrevent_state, showTabBar_state]
    cases m1 <;> cases m2 <;> first | exact absurd rfl hne | rfl
  rw [e1]
  refine ⟨rfl, rfl, ?_, ?_, ?_⟩
  · simp only [Run.done]
    rw [e2]
  · simp only [Run.done]
    rw [e2]
  · intro tabs htabs
    simp only [Run.done]
    rw [e2, handleKeyUp_combo_latched _ _ _ _ hmode rfl,
      switchToSelectedTab_visible h3 _ tabs htabs rfl]
    cases tabs with
    | nil => simp [arrayAt, updateComboKeyState, hideTabBar, Run.done]
    | cons t ts => simp [arrayAt, updateComboKeyState, hideTabBar]

/-- Witness for C7, the example of the specification: required modifiers `Control` and `Alt`;
`Control` alone keeps the overlay hidden, `Control` with `Alt` shows it, releasing `Alt` hides
it and activates the first catalog entry, the leaf 3 of the note `log`. -/
theorem combo_latch_witness :
    getTabs hostNotes = some hostNotesTabs ∧
    (handleKeyDown (comboSettings [Modifier.ctrl, Modifier.alt]) hostNotes Switcher.initial
      (modifierEvent Modifier.ctrl [Modifier.ctrl])).state.isVisible = false ∧
    (handleKeyDown (comboSettings [Modifier.ctrl, Modifier.alt]) hostNotes
      (handleKeyDown (comboSettings [Modifier.ctrl, Modifier.alt]) hostNotes Switcher.initial
        (modifierEvent Modifier.ctrl [Modifier.ctrl])).state
      (modifierEvent Modifier.alt [Modifier.ctrl, Modifier.alt])).state.isVisible = true ∧
    (handleKeyUp (comboSettings [Modifier.ctrl, Modifier.alt]) hostNotes
      (handleKeyDown (comboSettings [Modifier.ctrl, Modifier.alt]) hostNotes
        (handleKeyDown (comboSettings [Modifier.ctrl, Modifier.alt]) hostNotes Switcher.initial
          (modifierEvent Modifier.ctrl [Modifier.ctrl])).state
        (modifierEvent Modifier.alt [Modifier.ctrl, Modifier.alt])).state
      (modifierEvent Modifier.alt [Modifier.ctrl])).state.isVisible = false ∧
    (handleKeyUp (comboSettings [Modifier.ctrl, Modifier.alt]) hostNotes
      (handleKeyDown (comboSettings [Modifier.ctrl, Modifier.alt]) hostNotes
        (handleKeyDown (comboSettings [Modifier.ctrl, Modifier.alt]) hostNotes Switcher.initial
          (modifierEvent Modifier.ctrl [Modifier.ctrl])).state
        (modifierEvent Modifier.alt [Modifier.ctrl, Modifier.alt])).state
      (modifierEvent Modifier.alt [Modifier.ctrl])).activated = [3] :=
  have key := combo_latch (comboSettings [Modifier.ctrl, Modifier.alt]) Modifier.ctrl
    Modifier.alt hostNotes hostNotes hostNotes rfl rfl (by decide)
  ⟨by decide, key.1, key.2.2.1, (key.2.2.2.2 hostNotesTabs (by decide)).1,
   (key.2.2.2.2 hostNotesTabs (by decide)).2.2⟩

/-- C8: against a catalog of length zero, `moveSelection` in either direction returns
normally and leaves every field of the switcher as it was. -/
theorem moveSelection_empty (h : Host) (s : Switcher) (direction : Direction)
    (hret : getTabs h = some []) :
    moveSelection h s direction = Run.done s ∧
    (moveSelection h s direction).raised = false ∧
    (moveSelection h s direction).state.isVisible = s.isVisible ∧
    (moveSelection h s direction).state.currentIndex = s.currentIndex ∧
    (moveSelection h s direction).state.keyPressed = s.keyPressed ∧
    (moveSelection h s direction).state.comboKeysActive = s.comboKeysActive := by
  have hm : moveSelection h s direction = Run.done s := by
    unfold moveSelection
    split
    · rfl
    · simp [hret]
  rw [hm]
  exact ⟨rfl, rfl, rfl, rfl, rfl, rfl⟩

/-- Witness for C8: the overlay shown over a host without any leaf. -/
theorem moveSelection_empty_witness :
    getTabs hostEmpty = some [] ∧
    moveSelection hostEmpty (shownAt 0) Direction.left = Run.done (shownAt 0) ∧
    moveSelection hostEmpty (shownAt 0) Direction.right = Run.done (shownAt 0) :=
  ⟨by decide, (moveSelection_empty hostEmpty (shownAt 0) Direction.left (by decide)).1,
   (moveSelection_empty hostEmpty (shownAt 0) Direction.right (by decide)).1⟩

/-- C9, as amended: against a catalog of length zero, `switchToSelectedTab` returns normally,
asks the host for no activation and leaves the selection, `keyPressed` and the recorded
modifiers as they were; it hides a visible overlay and clears `comboKeysActive`, and changes
nothing when the overlay is already hidden. -/
theorem switchToSelectedTab_empty (h : Host) (s : Switcher) (hret : getTabs h = some []) :
    (switchToSelectedTab h s).raised = false ∧
    (switchToSelectedTab h s).activated = [] ∧
    (switchToSelectedTab h s).state.currentIndex = s.currentIndex ∧
    (switchToSelectedTab h s).state.originalIndex = s.originalIndex ∧
    (switchToSelectedTab h s).state.keyPressed = s.keyPressed ∧
    (switchToSelectedTab h s).state.comboKeysPressed = s.comboKeysPressed ∧
    (switchToSelectedTab h s).state.isVisible = false ∧
    (s.isVisible = true → (switchToSelectedTab h s).state.comboKeysActive = false) ∧
    (s.isVisible = false → (switchToSelectedTab h s).state = s) := by
  cases hv : s.isVisible with
  | false =>
    have hs : switchToSelectedTab h s = Run.done s := by
      unfold switchToSelectedTab
      simp [hv]
    rw [hs]
    simp [Run.done, hv]
  | true =>
    have hs : switchToSelectedTab h s =
        Run.done { s with isVisible := false, comboKeysActive := false } := by
      unfold switchToSelectedTab
      simp only [hv, hret, Bool.not_true, Bool.false_eq_true, if_false]
      have ha : arrayAt ([] : List TabInfo) s.currentIndex = none := by
        unfold arrayAt
        split <;> simp
      rw [ha]
      simp [hideTabBar, hv]
    rw [hs]
    simp [Run.done]

/-- Witness for the amended C9: the overlay shown over a host without any leaf is hidden by
the activation, with no request to the host. -/
theorem switchToSelectedTab_empty_witness :
    getTabs hostEmpty = some [] ∧
    (switchToSelectedTab hostEmpty (shownAt 0)).raised = false ∧
    (switchToSelectedTab hostEmpty (shownAt 0)).activated = [] ∧
    (switchToSelectedTab hostEmpty (shownAt 0)).state.currentIndex = 0 ∧
    (switchToSelectedTab hostEmpty (shownAt 0)).state.isVisible = false :=
  have key := switchToSelectedTab_empty hostEmpty (shownAt 0) (by decide)
  ⟨by decide, key.1, key.2.1, key.2.2.1, key.2.2.2.2.2.2.1⟩

/-- C9 as stated fails: with the overlay visible and a catalog of length zero, the activation
changes `isVisible` from true to false, both when called directly and when reached through the
key-up of the switch key. -/
theorem switchToSelectedTab_empty_counterexample :
    getTabs hostEmpty = some [] ∧
    (shownAt 0).isVisible = true ∧
    (switchToSelectedTab hostEmpty (shownAt 0)).state.isVisible = false ∧
    (switchToSelectedTab hostEmpty (shownAt 0)).state ≠ shownAt 0 ∧
    (handleKeyUp (singleKeySettings "Alt" false) hostEmpty (shownAt 0)
      (modifierEvent Modifier.alt [])).state.isVisible = false := by
  decide

/-- C10: with the overlay visible and the freshly computed catalog `tabs`, of size `N`,
`switchToSelectedTab` asks the host to activate exactly the leaf of `tabs[i]` when the selection
`i` is an index below `N`, asks for nothing when `i >= N`, and in both cases returns normally
with the overlay hidden. -/
theorem switchToSelectedTab_guarded (h : Host) (s : Switcher) (tabs : List TabInfo)
    (hret : getTabs h = some tabs) (hvis : s.isVisible = true) :
    (∀ (_ : 0 ≤ s.currentIndex) (hi : s.currentIndex.toNat < tabs.length),
      (switchToSelectedTab h s).activated = [(tabs.get ⟨s.currentIndex.toNat, hi⟩).leaf]) ∧
    ((tabs.length : Int) ≤ s.currentIndex → (switchToSelectedTab h s).activated = []) ∧
    (switchToSelectedTab h s).state.isVisible = false ∧
    (switchToSelectedTab h s).raised = false := by
  have hunf := switchToSelectedTab_visible h s tabs hret hvis
  have hhide : (hideTabBar s).isVisible = false := by
    simp [hideTabBar, hvis]
  refine ⟨?_, ?_, ?_, ?_⟩
  · intro h0 hi
    have ha : arrayAt tabs s.currentIndex = some (tabs.get ⟨s.currentIndex.toNat, hi⟩) := by
      unfold arrayAt
      rw [if_pos h0]
      exact List.get?_eq_get hi
    rw [hunf, ha]
  · intro hge
    have ha : arrayAt tabs s.currentIndex = none := by
      unfold arrayAt
      rw [if_pos (by omega)]
      exact List.get?_eq_none.mpr (by omega)
    rw [hunf, ha]
    rfl
  · rw [hunf]
    split
    · exact hhide
    · exact hhide
  · rw [hunf]
    split <;> rfl

/-- Witness for C10: three catalog entries; a selection of 1 activates the leaf of the second
entry, a stale selection of 3 activates nothing, and the overlay is hidden either way. -/
theorem switchToSelectedTab_guarded_witness :
    getTabs hostNotes = some hostNotesTabs ∧
    (switchToSelectedTab hostNotes (shownAt 1)).activated = [2] ∧
    (switchToSelectedTab hostNotes (shownAt 3)).activated = [] ∧
    (switchToSelectedTab hostNotes (shownAt 1)).state.isVisible = false ∧
    (switchToSelectedTab hostNotes (shownAt 3)).state.isVisible = false :=
  ⟨by decide,
   (switchToSelectedTab_guarded hostNotes (shownAt 1) hostNotesTabs (by decide) rfl).1
     (by decide) (by decide),
   (switchToSelectedTab_guarded hostNotes (shownAt 3) hostNotesTabs (by decide) rfl).2.1
     (by decide),
   (switchToSelectedTab_guarded hostNotes (shownAt 1) hostNotesTabs (by decide) rfl).2.2.1,
   (switchToSelectedTab_guarded hostNotes (shownAt 3) hostNotesTabs (by decide) rfl).2.2.1⟩

/-! ## Lemmas: visibility and the latch -/

/-- When the catalog computation returns, `switchToSelectedTab` leaves the overlay hidden and
`keyPressed` as it was, and clears `comboKeysActive` when the overlay was visible. -/
theorem switchToSelectedTab_hides (h : Host) (s : Switcher) (hret : (getTabs h).isSome = true) :
    (switchToSelectedTab h s).state.isVisible = false ∧
    (switchToSelectedTab h s).state.keyPressed = s.keyPressed ∧
    (switchToSelectedTab h s).state.comboKeysActive =
      (if s.isVisible then false else s.comboKeysActive) := by
  obtain ⟨tabs, htabs⟩ := Option.isSome_iff_exists.mp hret
  cases hv : s.isVisible with
  | false =>
    have hs : switchToSelectedTab h s = Run.done s := by
      unfold switchToSelectedTab
      simp [hv]
    rw [hs]
    simp [Run.done, hv]
  | true =>
    rw [switchToSelectedTab_visible h s tabs htabs hv]
    split <;> simp [hideTabBar, hv, Run.done]

theorem moveSelection_flags (h : Host) (s : Switcher) (direction : Direction) :
    (moveSelection h s direction).state.isVisible = s.isVisible ∧
    (moveSelection h s direction).state.keyPressed = s.keyPressed ∧
    (moveSelection h s direction).state.comboKeysActive = s.comboKeysActive := by
  unfold moveSelection
  split
  · exact ⟨rfl, rfl, rfl⟩
  · split
    · exact ⟨rfl, rfl, rfl⟩
    · split
      · exact ⟨rfl, rfl, rfl⟩
      · split <;> exact ⟨rfl, rfl, rfl⟩

/-- A listener run under a host whose catalog computation returns keeps the overlay visible
exactly when the latch of the mode is set. -/
theorem dispatch_visible_iff_latch (cfg : Settings) (h : Host) (s : Switcher) (input : KeyInput)
    (hret : (getTabs h).isSome = true) (hs : s.isVisible = latch cfg s) :
    (dispatch cfg h s input).state.isVisible = latch cfg (dispatch cfg h s input).state := by
  cases hmode : cfg.useComboKeys with
  | true =>
    have hs2 : s.isVisible = s.comboKeysActive := by
      simpa [latch, hmode] using hs
    simp only [latch, hmode, if_true]
    cases input with
    | down event =>
      have hv : (updateComboKeyState s event true).isVisible = s.isVisible := rfl
      have ha : (updateComboKeyState s event true).comboKeysActive = s.comboKeysActive := rfl
      simp only [dispatch, handleKeyDown, hmode, if_true]
      split
      · split
        · rename_i hact
          rw [thenPrevent_state, showTabBar_state]
          have hact2 : s.comboKeysActive = false := by simpa [ha] using hact
          have hvis : s.isVisible = false := by rw [hs2, hact2]
          simp [hv, hvis]
        · split
          · rw [thenPrevent_state]
            have hf := moveSelection_flags h (updateComboKeyState s event true) Direction.left
            rw [hf.1, hf.2.2, hv, ha]
            exact hs2
          · split
            · rw [thenPrevent_state]
              have hf := moveSelection_flags h (updateComboKeyState s event true)
                Direction.right
              rw [hf.1, hf.2.2, hv, ha]
              exact hs2
            · exact hs2
      · exact hs2
    | up event =>
      have hv : (updateComboKeyState s event false).isVisible = s.isVisible := rfl
      have ha : (updateComboKeyState s event false).comboKeysActive = s.comboKeysActive := rfl
      simp only [dispatch, handleKeyUp, hmode, if_true]
      split
      · have hh := switchToSelectedTab_hides h
          { updateComboKeyState s event false with comboKeysActive := false } hret
        rw [hh.1, hh.2.2]
        simp
      · exact hs2
  | false =>
    have hs2 : s.isVisible = s.keyPressed := by
      simpa [latch, hmode] using hs
    simp only [latch, hmode, Bool.false_eq_true, if_false]
    cases input with
    | down event =>
      have hv : (updateComboKeyState s event true).isVisible = s.isVisible := rfl
      have hk : (updateComboKeyState s event true).keyPressed = s.keyPressed := rfl
      simp only [dispatch, handleKeyDown, hmode, Bool.false_eq_true, if_false]
      split
      · rw [thenPrevent_state]
        split
        · rename_i hkp
          have hkp2 : s.keyPressed = false := by simpa [hk] using hkp
          have hvis : s.isVisible = false := by rw [hs2, hkp2]
          rw [showTabBar_state]
          simp [hv, hvis]
        · exact hs2
      · split
        · split
          · rw [thenPrevent_state]
            split
            · rw [returnToCurrentTabPosition_state]
              exact hs2
            · have hf := moveSelection_flags h (updateComboKeyState s event true)
                Direction.left
              rw [hf.1, hf.2.1, hv, hk]
              exact hs2
          · split
            · rw [thenPrevent_state]
              have hf := moveSelection_flags h (updateComboKeyState s event true)
                Direction.right
              rw [hf.1, hf.2.1, hv, hk]
              exact hs2
            · exact hs2
        · exact hs2
    | up event =>
      simp only [dispatch, handleKeyUp, hmode, Bool.false_eq_true, if_false]
      split
      · have hh := switchToSelectedTab_hides h
          { updateComboKeyState s event false with keyPressed := false } hret
        rw [hh.1, hh.2.1]
      · exact hs2

/-- As long as every catalog computation returns, the overlay is visible exactly when the
latch of the mode is set, in every state reached from the initial one. -/
theorem runEvents_visible_iff_latch (cfg : Settings) (trace : List (Host × KeyInput)) :
    ∀ s : Switcher, (∀ x ∈ trace, (getTabs x.1).isSome = true) → s.isVisible = latch cfg s →
      (runEvents cfg s trace).isVisible = latch cfg (runEvents cfg s trace) := by
  induction trace with
  | nil => intro s _ hs; exact hs
  | cons x rest ih =>
    intro s hh hs
    obtain ⟨h, input⟩ := x
    unfold runEvents
    exact ih _ (fun y hy => hh y (List.mem_cons_of_mem _ hy))
      (dispatch_visible_iff_latch cfg h s input (hh (h, input) (by simp)) hs)

/-! ## Lemmas: the selection and the catalog most recently computed -/

theorem showTabBar_selectionOk (h : Host) (s : Switcher) (last : Option Nat)
    (hs : SelectionOk s last) :
    SelectionOk (showTabBar h s).state (sizeAfter (showTabBarComputes s) h last) := by
  rw [showTabBar_state]
  cases hv : s.isVisible with
  | true =>
    simp only [showTabBarComputes, hv, sizeAfter, Bool.not_true, Bool.false_eq_true, if_false,
      if_true]
    exact hs
  | false =>
    simp only [Bool.false_eq_true, if_false]
    refine ⟨le_refl _, fun _ N _ hN => ?_⟩
    show (0 : Int) < N
    omega

theorem moveSelection_selectionOk (h : Host) (s : Switcher) (direction : Direction)
    (last : Option Nat) (hs : SelectionOk s last) :
    SelectionOk (moveSelection h s direction).state
      (sizeAfter (moveSelectionComputes s) h last) := by
  cases hv : s.isVisible with
  | false =>
    have hm : moveSelection h s direction = Run.done s := by
      unfold moveSelection
      simp [hv]
    rw [hm]
    simp only [moveSelectionComputes, hv, sizeAfter, Bool.false_eq_true, if_false]
    exact hs
  | true =>
    cases hret : getTabs h with
    | none =>
      have hm : moveSelection h s direction = Run.fail s := by
        unfold moveSelection
        simp [hv, hret]
      rw [hm]
      simp only [moveSelectionComputes, hv, sizeAfter, hret, if_true]
      exact hs
    | some tabs =>
      simp only [moveSelectionComputes, hv, sizeAfter, hret, if_true]
      by_cases hlen : tabs.length = 0
      · have hm : moveSelection h s direction = Run.done s := by
          unfold moveSelection
          simp [hv, hret, hlen]
        rw [hm]
        refine ⟨hs.1, fun _ N hN1 hN2 => ?_⟩
        have : tabs.length = N := Option.some.inj hN1
        omega
      · rw [moveSelection_visible h s tabs direction hret (by omega) hv]
        have hpos : (0 : Int) < (tabs.length : Int) := by omega
        have hb : ∀ a : Int, 0 ≤ a →
            SelectionOk { s with currentIndex := Int.tmod a (tabs.length : Int) }
              (some tabs.length) := by
          intro a ha
          have hr := tmod_range ha hpos
          refine ⟨hr.1, fun _ N hN1 _ => ?_⟩
          have hN : tabs.length = N := Option.some.inj hN1
          show Int.tmod a (tabs.length : Int) < N
          rw [← hN]
          exact hr.2
        simp only [Run.done]
        split
        · exact hb _ (by have := hs.1; omega)
        · exact hb _ (by have := hs.1; omega)

theorem returnToCurrentTabPosition_selectionOk (h : Host) (s : Switcher) (last : Option Nat)
    (hidx : s.currentIndex = 0) :
    SelectionOk (returnToCurrentTabPosition h s).state
      (sizeAfter (returnToCurrentTabPositionComputes s) h last) := by
  rw [returnToCurrentTabPosition_state]
  refine ⟨by rw [hidx], fun _ N _ hN => ?_⟩
  rw [hidx]
  show (0 : Int) < N
  omega

theorem switchToSelectedTab_selectionOk (h : Host) (s : Switcher) (last : Option Nat)
    (hs : SelectionOk s last) :
    SelectionOk (switchToSelectedTab h s).state
      (sizeAfter (switchToSelectedTabComputes s) h last) := by
  cases hv : s.isVisible with
  | false =>
    have hm : switchToSelectedTab h s = Run.done s := by
      unfold switchToSelectedTab
      simp [hv]
    rw [hm]
    simp only [switchToSelectedTabComputes, hv, sizeAfter, Bool.false_eq_true, if_false]
    exact hs
  | true =>
    cases hret : getTabs h with
    | none =>
      have hm : switchToSelectedTab h s = Run.fail s := by
        unfold switchToSelectedTab
        simp [hv, hret]
      rw [hm]
      simp only [switchToSelectedTabComputes, hv, sizeAfter, hret, if_true]
      exact hs
    | some tabs =>
      have hh := switchToSelectedTab_hides h s (by rw [hret]; rfl)
      refine ⟨by rw [switchToSelectedTab_index]; exact hs.1, fun hvis => ?_⟩
      rw [hh.1] at hvis
      exact absurd hvis (by simp)

/-- A method that does not reach `getTabs` does the same under every host. -/
theorem methods_of_not_computes (h h2 : Host) (s : Switcher) :
    (showTabBarComputes s = false → showTabBar h s = showTabBar h2 s) ∧
    (moveSelectionComputes s = false →
      ∀ d, moveSelection h s d = moveSelection h2 s d) ∧
    (returnToCurrentTabPositionComputes s = false →
      returnToCurrentTabPosition h s = returnToCurrentTabPosition h2 s) ∧
    (switchToSelectedTabComputes s = false →
      switchToSelectedTab h s = switchToSelectedTab h2 s) := by
  refine ⟨?_, ?_, ?_, ?_⟩
  · intro hc
    have hv : s.isVisible = true := by simpa [showTabBarComputes] using hc
    unfold showTabBar
    simp [hv]
  · intro hc d
    have hv : s.isVisible = false := hc
    unfold moveSelection
    simp [hv]
  · intro hc
    have hv : s.isVisible = false := hc
    unfold returnToCurrentTabPosition
    simp [hv]
  · intro hc
    have hv : s.isVisible = false := hc
    unfold switchToSelectedTab
    simp [hv]

/-- A method that reaches `getTabs` raises when `getTabs` raises. -/
theorem methods_of_computes (h : Host) (s : Switcher) (hret : getTabs h = none) :
    (showTabBarComputes s = true → (showTabBar h s).raised = true) ∧
    (moveSelectionComputes s = true → ∀ d, (moveSelection h s d).raised = true) ∧
    (returnToCurrentTabPositionComputes s = true →
      (returnToCurrentTabPosition h s).raised = true) ∧
    (switchToSelectedTabComputes s = true → (switchToSelectedTab h s).raised = true) := by
  refine ⟨?_, ?_, ?_, ?_⟩
  · intro hc
    have hv : s.isVisible = false := by simpa [showTabBarComputes] using hc
    unfold showTabBar
    simp [hv, hret, Run.fail]
  · intro hc d
    have hv : s.isVisible = true := hc
    unfold moveSelection
    simp [hv, hret, Run.fail]
  · intro hc
    have hv : s.isVisible = true := hc
    unfold returnToCurrentTabPosition
    simp [hv, hret, Run.fail]
  · intro hc
    have hv : s.isVisible = true := hc
    unfold switchToSelectedTab
    simp [hv, hret, Run.fail]

/-- A listener that computes no catalog does the same under every host. -/
theorem dispatch_of_not_computes (cfg : Settings) (h h2 : Host) (s : Switcher)
    (input : KeyInput) (hc : computes cfg s input = false) :
    dispatch cfg h s input = dispatch cfg h2 s input := by
  cases input with
  | down event =>
    simp only [computes] at hc
    simp only [dispatch]
    unfold handleKeyDownComputes at hc
    unfold handleKeyDown
    simp only at hc ⊢
    split
    · rename_i c0
      rw [if_pos c0] at hc
      split
      · rename_i c1
        rw [if_pos c1] at hc
        split
        · rename_i c2
          rw [if_pos c2] at hc
          rw [(methods_of_not_computes h h2 _).1 hc]
        · rename_i c2
          rw [if_neg c2] at hc
          split
          · rename_i c3
            rw [if_pos c3] at hc
            rw [(methods_of_not_computes h h2 _).2.1 hc]
          · rename_i c3
            rw [if_neg c3] at hc
            split
            · rename_i c4
              rw [if_pos c4] at hc
              rw [(methods_of_not_computes h h2 _).2.1 hc]
            · rfl
      · rfl
    · rename_i c0
      rw [if_neg c0] at hc
      split
      · rename_i d1
        rw [if_pos d1] at hc
        split
        · rename_i d2
          rw [if_pos d2] at hc
          rw [(methods_of_not_computes h h2 _).1 hc]
        · rfl
      · rename_i d1
        rw [if_neg d1] at hc
        split
        · rename_i d3
          rw [if_pos d3] at hc
          split
          · rename_i c3
            rw [if_pos c3] at hc
            split
            · rename_i d4
              rw [if_pos d4] at hc
              rw [(methods_of_not_computes h h2 _).2.2.1 hc]
            · rename_i d4
              rw [if_neg d4] at hc
              rw [(methods_of_not_computes h h2 _).2.1 hc]
          · rename_i c3
            rw [if_neg c3] at hc
            split
            · rename_i c4
              rw [if_pos c4] at hc
              rw [(methods_of_not_computes h h2 _).2.1 hc]
            · rfl
        · rfl
  | up event =>
    simp only [computes] at hc
    simp only [dispatch]
    unfold handleKeyUpComputes at hc
    unfold handleKeyUp
    simp only at hc ⊢
    split
    · rename_i c0
      rw [if_pos c0] at hc
      split
      · rename_i c1
        rw [if_pos c1] at hc
        exact (methods_of_not_computes h h2 _).2.2.2 hc
      · rfl
    · rename_i c0
      rw [if_neg c0] at hc
      split
      · rename_i c1
        rw [if_pos c1] at hc
        exact (methods_of_not_computes h h2 _).2.2.2 hc
      · rfl

/-- A listener that computes a catalog raises when `getTabs` raises: the call is reached. -/
theorem dispatch_of_computes (cfg : Settings) (h : Host) (s : Switcher) (input : KeyInput)
    (hc : computes cfg s input = true) (hret : getTabs h = none) :
    (dispatch cfg h s input).raised = true := by
  have hm := fun x => methods_of_computes h x hret
  cases input with
  | down event =>
    simp only [computes] at hc
    simp only [dispatch]
    unfold handleKeyDownComputes at hc
    unfold handleKeyDown
    simp only at hc ⊢
    split
    · rename_i c0
      rw [if_pos c0] at hc
      split
      · rename_i c1
        rw [if_pos c1] at hc
        split
        · rename_i c2
          rw [if_pos c2] at hc
          rw [thenPrevent_raised]
          exact (hm _).1 hc
        · rename_i c2
          rw [if_neg c2] at hc
          split
          · rename_i c3
            rw [if_pos c3] at hc
            rw [thenPrevent_raised]
            exact (hm _).2.1 hc _
          · rename_i c3
            rw [if_neg c3] at hc
            split
            · rename_i c4
              rw [if_pos c4] at hc
              rw [thenPrevent_raised]
              exact (hm _).2.1 hc _
            · rename_i c4
              rw [if_neg c4] at hc
              exact absurd hc (by simp)
      · rename_i c1
        rw [if_neg c1] at hc
        exact absurd hc (by simp)
    · rename_i c0
      rw [if_neg c0] at hc
      split
      · rename_i d1
        rw [if_pos d1] at hc
        rw [thenPrevent_raised]
        split
        · rename_i d2
          rw [if_pos d2] at hc
          exact (hm _).1 hc
        · rename_i d2
          rw [if_neg d2] at hc
          exact absurd hc (by simp)
      · rename_i d1
        rw [if_neg d1] at hc
        split
        · rename_i d3
          rw [if_pos d3] at hc
          split
          · rename_i c3
            rw [if_pos c3] at hc
            rw [thenPrevent_raised]
            split
            · rename_i d4
              rw [if_pos d4] at hc
              exact (hm _).2.2.1 hc
            · rename_i d4
              rw [if_neg d4] at hc
              exact (hm _).2.1 hc _
          · rename_i c3
            rw [if_neg c3] at hc
            split
            · rename_i c4
              rw [if_pos c4] at hc
              rw [thenPrevent_raised]
              exact (hm _).2.1 hc _
            · rename_i c4
              rw [if_neg c4] at hc
              exact absurd hc (by simp)
        · rename_i d3
          rw [if_neg d3] at hc
          exact absurd hc (by simp)
  | up event =>
    simp only [computes] at hc
    simp only [dispatch]
    unfold handleKeyUpComputes at hc
    unfold handleKeyUp
    simp only at hc ⊢
    split
    · rename_i c0
      rw [if_pos c0] at hc
      split
      · rename_i c1
        rw [if_pos c1] at hc
        exact (hm _).2.2.2 hc
      · rename_i c1
        rw [if_neg c1] at hc
        exact absurd hc (by simp)
    · rename_i c0
      rw [if_neg c0] at hc
      split
      · rename_i c1
        rw [if_pos c1] at hc
        exact (hm _).2.2.2 hc
      · rename_i c1
        rw [if_neg c1] at hc
        exact absurd hc (by simp)

theorem sizeAfter_false (h : Host) (last : Option Nat) : sizeAfter false h last = last := rfl

theorem handleKeyDown_selectionOk (cfg : Settings) (h : Host) (s : Switcher) (event : KeyEvent)
    (last : Option Nat) (hs : SelectionOk s last) :
    SelectionOk (handleKeyDown cfg h s event).state
      (sizeAfter (handleKeyDownComputes cfg s event) h last) := by
  have h1 : SelectionOk (updateComboKeyState s event true) last := hs
  unfold handleKeyDown handleKeyDownComputes
  simp only
  split
  · split
    · split
      · rw [thenPrevent_state]
        exact showTabBar_selectionOk h _ last h1
      · split
        · rw [thenPrevent_state]
          exact moveSelection_selectionOk h _ _ last h1
        · split
          · rw [thenPrevent_state]
            exact moveSelection_selectionOk h _ _ last h1
          · exact h1
    · exact h1
  · split
    · rw [thenPrevent_state]
      split
      · exact showTabBar_selectionOk h _ last h1
      · exact h1
    · split
      · split
        · rw [thenPrevent_state]
          split
          · rename_i hidx
            exact returnToCurrentTabPosition_selectionOk h _ last hidx
          · exact moveSelection_selectionOk h _ _ last h1
        · split
          · rw [thenPrevent_state]
            exact moveSelection_selectionOk h _ _ last h1
          · exact h1
      · exact h1

theorem handleKeyUp_selectionOk (cfg : Settings) (h : Host) (s : Switcher) (event : KeyEvent)
    (last : Option Nat) (hs : SelectionOk s last) :
    SelectionOk (handleKeyUp cfg h s event).state
      (sizeAfter (handleKeyUpComputes cfg s event) h last) := by
  have h1 : SelectionOk (updateComboKeyState s event false) last := hs
  unfold handleKeyUp handleKeyUpComputes
  simp only
  split
  · split
    · exact switchToSelectedTab_selectionOk h _ last h1
    · exact h1
  · split
    · exact switchToSelectedTab_selectionOk h _ last h1
    · exact h1

theorem dispatch_selectionOk (cfg : Settings) (h : Host) (s : Switcher) (input : KeyInput)
    (last : Option Nat) (hs : SelectionOk s last) :
    SelectionOk (dispatch cfg h s input).state (sizeAfter (computes cfg s input) h last) := by
  cases input with
  | down event => exact handleKeyDown_selectionOk cfg h s event last hs
  | up event => exact handleKeyUp_selectionOk cfg h s event last hs

theorem runEvents_selectionOk (cfg : Settings) (trace : List (Host × KeyInput)) :
    ∀ (s : Switcher) (last : Option Nat), SelectionOk s last →
      SelectionOk (runEvents cfg s trace) (lastCatalogSize cfg s last trace) := by
  induction trace with
  | nil => intro s last hs; exact hs
  | cons x rest ih =>
    intro s last hs
    obtain ⟨h, input⟩ := x
    unfold runEvents lastCatalogSize
    exact ih _ _ (dispatch_selectionOk cfg h s input last hs)

/-! ## Reachable states, classification and stale selections: claims -/

/-- C11, as amended: in every state reached from the initial one by key-down and key-up
events, in either mode and under any host state at each event, the selection is a
non-negative integer, and whenever the overlay is visible the selection is below the size of
the catalog most recently computed by a listener, provided that catalog is not empty. -/
theorem selection_in_range (cfg : Settings) (trace : List (Host × KeyInput)) :
    0 ≤ (runEvents cfg Switcher.initial trace).currentIndex ∧
    ((runEvents cfg Switcher.initial trace).isVisible = true →
      ∀ N : Nat, lastCatalogSize cfg Switcher.initial none trace = some N → 1 ≤ N →
        (runEvents cfg Switcher.initial trace).currentIndex < N) := by
  have hinit : SelectionOk Switcher.initial none :=
    ⟨le_refl _, fun _ N hN _ => absurd hN (by simp)⟩
  exact runEvents_selectionOk cfg trace Switcher.initial none hinit

/-- Witness for the amended C11: `Alt` and two presses of `ArrowRight` over three catalog
entries, then a key-down of `a` once the host has one entry left; the overlay is visible, the
catalog most recently computed has three entries and the selection is 2. -/
theorem selection_in_range_witness :
    (runEvents (singleKeySettings "Alt" false) Switcher.initial traceShrink).isVisible = true ∧
    lastCatalogSize (singleKeySettings "Alt" false) Switcher.initial none traceShrink
      = some 3 ∧
    (runEvents (singleKeySettings "Alt" false) Switcher.initial traceShrink).currentIndex = 2 ∧
    (runEvents (singleKeySettings "Alt" false) Switcher.initial traceShrink).currentIndex
      < (3 : Nat) :=
  ⟨by decide, by decide, by decide,
   (selection_in_range (singleKeySettings "Alt" false) traceShrink).2 (by decide) 3
     (by decide) (by decide)⟩

/-- C11 as stated fails, in two ways.  Pressing the switch key while the host has no open leaf
shows the overlay with the selection at 0 over a catalog of size 0.  And once the selection
has been moved to 2 over three entries, it is still 2, with the overlay visible, after the host
has closed leaves and its catalog has one entry. -/
theorem selection_in_range_counterexample :
    (runEvents (singleKeySettings "Alt" false) Switcher.initial traceShowEmpty).isVisible = true ∧
    (runEvents (singleKeySettings "Alt" false) Switcher.initial traceShowEmpty).currentIndex = 0 ∧
    getTabs hostEmpty = some [] ∧
    (runEvents (singleKeySettings "Alt" false) Switcher.initial traceShrink).isVisible = true ∧
    (runEvents (singleKeySettings "Alt" false) Switcher.initial traceShrink).currentIndex = 2 ∧
    (getTabs hostOne).map List.length = some 1 := by
  decide

/-- C12, evaluated on the code: in combo mode with `Control` and `Alt` required, after the
key-downs of `Control` and `Alt` the record holds both, as the events report; the key-up of
`Alt`, whose event reports `Control` as still pressed, leaves `Control` recorded as not held.
The same happens in single-key mode. -/
theorem keyUp_clears_held_modifiers :
    comboLatched.comboKeysPressed = requiredOf [Modifier.ctrl, Modifier.alt] ∧
    (modifierEvent Modifier.alt [Modifier.ctrl]).ctrlKey = true ∧
    (handleKeyUp (comboSettings [Modifier.ctrl, Modifier.alt]) hostNotes comboLatched
      (modifierEvent Modifier.alt [Modifier.ctrl])).state.comboKeysPressed.ctrl = false ∧
    (handleKeyUp (singleKeySettings "Alt" false) hostNotes
      (updateComboKeyState (shownAt 0)
        (modifierEvent Modifier.ctrl [Modifier.ctrl, Modifier.alt]) true)
      (modifierEvent Modifier.ctrl [Modifier.alt])).state.comboKeysPressed.alt = false := by
  decide

/-- C13, evaluated on the code: in combo mode with `Control` and `Alt` required, the overlay
visible and the latch set, the key-up of `ArrowRight`, whose event reports `Control` and `Alt`
as still pressed, hides the overlay, clears the latch and asks the host to activate the first
catalog entry. -/
theorem keyUp_of_other_key_activates :
    comboLatched.isVisible = true ∧ comboLatched.comboKeysActive = true ∧
    (plainEvent "ArrowRight" [Modifier.ctrl, Modifier.alt]).ctrlKey = true ∧
    (plainEvent "ArrowRight" [Modifier.ctrl, Modifier.alt]).altKey = true ∧
    (handleKeyUp (comboSettings [Modifier.ctrl, Modifier.alt]) hostNotes comboLatched
      (plainEvent "ArrowRight" [Modifier.ctrl, Modifier.alt])).state.isVisible = false ∧
    (handleKeyUp (comboSettings [Modifier.ctrl, Modifier.alt]) hostNotes comboLatched
      (plainEvent "ArrowRight" [Modifier.ctrl, Modifier.alt])).state.comboKeysActive = false ∧
    (handleKeyUp (comboSettings [Modifier.ctrl, Modifier.alt]) hostNotes comboLatched
      (plainEvent "ArrowRight" [Modifier.ctrl, Modifier.alt])).activated = [3] := by
  decide

/-- C14: `isComboKeysPressed` is true exactly when some modifier is flagged as required and
every flagged modifier is recorded as held; two held-modifier records that agree on the
flagged modifiers give the same value. -/
theorem isComboKeysPressed_iff (cfg : Settings) (s s2 : Switcher) :
    (isComboKeysPressed cfg s = true ↔
      (∃ m, cfg.comboKeys.has m = true) ∧
      ∀ m, cfg.comboKeys.has m = true → s.comboKeysPressed.has m = true) ∧
    ((∀ m, cfg.comboKeys.has m = true →
        s.comboKeysPressed.has m = s2.comboKeysPressed.has m) →
      isComboKeysPressed cfg s = isComboKeysPressed cfg s2) := by
  obtain ⟨_, _, _, ⟨rc, rt, ra, rs⟩⟩ := cfg
  obtain ⟨_, _, _, _, ⟨pc, pt, pa, ps⟩, _⟩ := s
  obtain ⟨_, _, _, _, ⟨qc, qt, qa, qs⟩, _⟩ := s2
  constructor
  · constructor
    · intro hp
      simp only [isComboKeysPressed, Bool.and_eq_true, Bool.or_eq_true,
        Bool.not_eq_true'] at hp
      obtain ⟨⟨⟨⟨h1, h2⟩, h3⟩, h4⟩, h5⟩ := hp
      constructor
      · rcases h5 with ((h5 | h5) | h5) | h5
        · exact ⟨Modifier.cmd, h5⟩
        · exact ⟨Modifier.ctrl, h5⟩
        · exact ⟨Modifier.alt, h5⟩
        · exact ⟨Modifier.shift, h5⟩
      · intro m hm
        cases m
        · rcases h1 with h1 | h1
          · simp only [ComboKeys.has] at hm; rw [h1] at hm; exact absurd hm (by simp)
          · exact h1
        · rcases h2 with h2 | h2
          · simp only [ComboKeys.has] at hm; rw [h2] at hm; exact absurd hm (by simp)
          · exact h2
        · rcases h3 with h3 | h3
          · simp only [ComboKeys.has] at hm; rw [h3] at hm; exact absurd hm (by simp)
          · exact h3
        · rcases h4 with h4 | h4
          · simp only [ComboKeys.has] at hm; rw [h4] at hm; exact absurd hm (by simp)
          · exact h4
    · rintro ⟨⟨m, hm⟩, hall⟩
      have hc := hall Modifier.cmd
      have ht := hall Modifier.ctrl
      have ha := hall Modifier.alt
      have hs := hall Modifier.shift
      simp only [ComboKeys.has] at hc ht ha hs
      cases m <;> simp only [ComboKeys.has] at hm <;>
        cases rc <;> cases rt <;> cases ra <;> cases rs <;>
        simp_all [isComboKeysPressed]
  · intro hagree
    have hc := hagree Modifier.cmd
    have ht := hagree Modifier.ctrl
    have ha := hagree Modifier.alt
    have hs := hagree Modifier.shift
    simp only [ComboKeys.has] at hc ht ha hs
    cases rc <;> cases rt <;> cases ra <;> cases rs <;>
      simp_all [isComboKeysPressed]

/-- Witness for C14: `Control` and `Alt` required; the records "Control, Alt" and "Control,
Alt, Shift" agree on the required modifiers and both satisfy the combo. -/
theorem isComboKeysPressed_iff_witness :
    isComboKeysPressed (comboSettings [Modifier.ctrl, Modifier.alt])
      (updateComboKeyState Switcher.initial
        (modifierEvent Modifier.alt [Modifier.ctrl, Modifier.alt]) true) =
    isComboKeysPressed (comboSettings [Modifier.ctrl, Modifier.alt])
      (updateComboKeyState Switcher.initial
        (modifierEvent Modifier.alt [Modifier.ctrl, Modifier.alt, Modifier.shift]) true) :=
  (isComboKeysPressed_iff (comboSettings [Modifier.ctrl, Modifier.alt])
    (updateComboKeyState Switcher.initial
      (modifierEvent Modifier.alt [Modifier.ctrl, Modifier.alt]) true)
    (updateComboKeyState Switcher.initial
      (modifierEvent Modifier.alt [Modifier.ctrl, Modifier.alt, Modifier.shift]) true)).2
    (by intro m hm; cases m <;> first | rfl | exact absurd hm (by decide))

/-- C15, as amended: in a catalog returned by `getTabs` no two descriptors have the same title
or the same leaf, and, when files with the same path have the same base name, no two `file`
descriptors have the same `path`. -/
theorem getTabs_file_locators (h : Host) (tabs : List TabInfo) (hret : getTabs h = some tabs)
    (hfiles : ∀ a ∈ candidates h, ∀ b ∈ candidates h,
      a.file.map TFile.path = b.file.map TFile.path →
      a.file.map TFile.basename = b.file.map TFile.basename) :
    tabs.Pairwise (fun a b =>
      a.title ≠ b.title ∧ a.leaf ≠ b.leaf ∧
      (a.type = TabType.file → b.type = TabType.file → a.path ≠ b.path)) := by
  have hperm := sortBy_perm (compareTabs h (recentFiles h)) (dedup (candidates h))
  have htitle : (tabs.map TabInfo.title).Nodup := by
    rw [getTabs_eq hret]
    exact (hperm.map TabInfo.title).nodup_iff.mpr (dedup_title_nodup _)
  have hleaf : (tabs.map TabInfo.leaf).Nodup := by
    rw [getTabs_eq hret]
    exact (hperm.map TabInfo.leaf).nodup_iff.mpr (dedup_leaf_nodup _)
  have ht : tabs.Pairwise (fun a b => a.title ≠ b.title) := List.Pairwise.of_map _ (fun _ _ hab => hab) htitle
  have hl : tabs.Pairwise (fun a b => a.leaf ≠ b.leaf) := List.Pairwise.of_map _ (fun _ _ hab => hab) hleaf
  refine (ht.and hl).imp_of_mem ?_
  intro a b ha hb hab
  refine ⟨hab.1, hab.2, ?_⟩
  intro hak hbk hpath
  have hca := mem_getTabs hret ha
  have hcb := mem_getTabs hret hb
  obtain ⟨fa, hfa⟩ := getTabInfo_file_shape (mem_candidates hca).2.2 hak
  obtain ⟨fb, hfb⟩ := getTabInfo_file_shape (mem_candidates hcb).2.2 hbk
  have hbase := hfiles a hca b hcb
    (by rw [hfa, hfb] at hpath ⊢; exact congrArg some hpath)
  rw [hfa, hfb] at hbase
  have hbase2 : fa.basename = fb.basename := Option.some.inj hbase
  apply hab.1
  rw [hfa, hfb]
  simp only [fileTab, hbase2]

/-- Witness for the amended C15: three notes with distinct paths. -/
theorem getTabs_file_locators_witness :
    getTabs hostRecency = some hostRecencyTabs ∧
    hostRecencyTabs.Pairwise (fun a b =>
      a.title ≠ b.title ∧ a.leaf ≠ b.leaf ∧
      (a.type = TabType.file → b.type = TabType.file → a.path ≠ b.path)) :=
  ⟨by decide, getTabs_file_locators hostRecency hostRecencyTabs (by decide) (by decide)⟩

/-- C15 as stated fails: two `custom-frames` leaves that expose no URL both receive the
locator `custom-frames://internal`; their titles differ, so both are kept. -/
theorem getTabs_file_locators_counterexample :
    getTabs hostFrames = some [frameTab 0 "Calendar", frameTab 1 "Mail"] ∧
    (frameTab 0 "Calendar").path = (frameTab 1 "Mail").path ∧
    (frameTab 0 "Calendar").leaf ≠ (frameTab 1 "Mail").leaf := by
  decide

/-- C16, as amended: for a leaf whose view exposes a file, `getTabInfo` returns the descriptor
of type `file` whose `path` is the path of the file and whose title is the base name of the
file, or `Untitled` when the base name is empty; it depends on the leaf handle and the file
only, whatever URL, source, frame or view type the leaf also exposes. -/
theorem getTabInfo_file_priority (h : Host) (lf : Handle) (v : View) (f : TFile)
    (hv : (h.leaf lf).view = some v) (hf : v.file = some f) :
    getTabInfo h lf = some
      { leaf := lf
        file := some f
        title := if f.basename = "" then "Untitled" else f.basename
        path := f.path
        type := TabType.file } ∧
    (f.basename ≠ "" → (getTabInfo h lf).map TabInfo.title = some f.basename) ∧
    (∀ (h2 : Host) (v2 : View), (h2.leaf lf).view = some v2 → v2.file = some f →
      getTabInfo h2 lf = getTabInfo h lf) := by
  have key := getTabInfo_of_file h lf v f hv hf
  refine ⟨key, ?_, ?_⟩
  · intro hne
    rw [key]
    simp [fileTab, hne]
  · intro h2 v2 hv2 hf2
    rw [key, getTabInfo_of_file h2 lf v2 f hv2 hf2]

/-- Witness for the amended C16: a note whose view also carries a URL, a source, an embedded
frame and the view type `webview` is classified as the file `work/plan.md`, titled `plan`. -/
theorem getTabInfo_file_priority_witness :
    getTabInfo hostHybrid 1 = some
      { leaf := 1
        file := some { basename := "plan", path := "work/plan.md", mtime := some 10 }
        title := "plan"
        path := "work/plan.md"
        type := TabType.file } :=
  (getTabInfo_file_priority hostHybrid 1
    { View.blank with
      file := some { basename := "plan", path := "work/plan.md", mtime := some 10 }
      url := some "https://example.org/"
      src := some "https://example.org/"
      containerIframes := some [some "https://example.org/frame"]
      getDisplayText := Call.returns (some "Example") }
    { basename := "plan", path := "work/plan.md", mtime := some 10 } rfl rfl).1

/-- C16 as stated fails: for a file whose base name is empty the title of the descriptor is
`Untitled`, not the base name. -/
theorem getTabInfo_file_priority_counterexample :
    (hostDotFile.leaf 0).view.map (fun v => v.file) =
      some (some { basename := "", path := ".md", mtime := some 1 }) ∧
    (getTabInfo hostDotFile 0).map TabInfo.title = some "Untitled" ∧
    (getTabInfo hostDotFile 0).map TabInfo.title ≠ some "" := by
  decide

/-- C17, evaluated on the code: a web viewer whose `getDisplayText()` raises is skipped by
`getTabInfo`, which returns `null`, but `getTabs` raises on it from its log statements,
although the same host without that leaf has the catalog of one note; and a note whose
`getViewType()` raises is classified by `getTabInfo`, yet `getTabs` raises as well. -/
theorem getTabs_raises_on_faulty_leaf :
    getTabInfo hostFaultyTitle 1 = none ∧
    getTabs hostFaultyTitle = none ∧
    getTabs hostHealthy = some [fileTab 0 { basename := "inbox", path := "inbox.md", mtime := some 5 }] ∧
    (getTabInfo hostFaultyType 1).isSome = true ∧
    getTabs hostFaultyType = none := by
  decide

/-- C18: a catalog returned by `getTabs` holds at most one descriptor per title, and the
first candidate with a title is the one retained whenever every later candidate with that
title has the same type. -/
theorem getTabs_one_per_title (h : Host) (tabs : List TabInfo) (hret : getTabs h = some tabs) :
    (tabs.map TabInfo.title).Nodup ∧
    ∀ (pre post : List TabInfo) (c : TabInfo), candidates h = pre ++ c :: post →
      (∀ g ∈ pre, g.title ≠ c.title) →
      (∀ g ∈ post, g.title = c.title → g.type = c.type) → c ∈ tabs := by
  have hperm := sortBy_perm (compareTabs h (recentFiles h)) (dedup (candidates h))
  constructor
  · rw [getTabs_eq hret]
    exact (hperm.map TabInfo.title).nodup_iff.mpr (dedup_title_nodup _)
  · intro pre post c hsplit hfirst hsame
    rw [getTabs_eq hret, mem_sortBy, hsplit]
    refine dedup_keeps_first_of_kind pre post c ?_ hfirst hsame
    intro a ha hac
    refine @candidates_det h a c ?_ ?_ hac
    · rw [hsplit]; exact List.mem_append_left _ ha
    · rw [hsplit]; simp

/-- Witness for C18, the example of the claim: two notes named `index` in different folders;
the one enumerated first is retained, alone. -/
theorem getTabs_one_per_title_witness :
    getTabs hostSameName = some [indexNoteA 0] ∧
    candidates hostSameName = [indexNoteA 0, indexNoteB 1] ∧
    indexNoteA 0 ∈ [indexNoteA 0] :=
  ⟨by decide, by decide,
   (getTabs_one_per_title hostSameName [indexNoteA 0] (by decide)).2 [] [indexNoteB 1]
     (indexNoteA 0) (by decide) (by decide) (by decide)⟩

/-- C19: with the overlay visible, a catalog of `N >= 1` entries and any selection `i >= 0`,
stale (`i >= N`) or not, `moveSelection` in either direction leaves the selection in `[0, N)`:
at `(i - 1 + N) mod N` for a left move and at `(i + 1) mod N` for a right move. -/
theorem moveSelection_stale_index (h : Host) (s : Switcher) (tabs : List TabInfo)
    (direction : Direction) (hret : getTabs h = some tabs) (hN : 1 ≤ tabs.length)
    (hvis : s.isVisible = true) (h0 : 0 ≤ s.currentIndex) :
    0 ≤ (moveSelection h s direction).state.currentIndex ∧
    (moveSelection h s direction).state.currentIndex < (tabs.length : Int) ∧
    (moveSelection h s Direction.left).state.currentIndex =
      (s.currentIndex - 1 + (tabs.length : Int)) % (tabs.length : Int) ∧
    (moveSelection h s Direction.right).state.currentIndex =
      (s.currentIndex + 1) % (tabs.length : Int) := by
  have hpos : (0 : Int) < (tabs.length : Int) := by omega
  refine ⟨?_, ?_, ?_, ?_⟩
  · rw [moveSelection_visible h s tabs direction hret hN hvis]
    simp only [Run.done]
    split
    · exact (tmod_range (by omega) hpos).1
    · exact (tmod_range (by omega) hpos).1
  · rw [moveSelection_visible h s tabs direction hret hN hvis]
    simp only [Run.done]
    split
    · exact (tmod_range (by omega) hpos).2
    · exact (tmod_range (by omega) hpos).2
  · rw [moveSelection_visible h s tabs Direction.left hret hN hvis]
    simp only [Run.done, if_true]
    exact Int.tmod_eq_emod (by omega) (by omega)
  · rw [moveSelection_visible h s tabs Direction.right hret hN hvis]
    simp only [Run.done]
    rw [if_neg (by decide)]
    exact Int.tmod_eq_emod (by omega) (by omega)

/-- Witness for C19: a stale selection of 7 over three entries becomes 0 by a left move and 2
by a right move. -/
theorem moveSelection_stale_index_witness :
    getTabs hostNotes = some hostNotesTabs ∧ hostNotesTabs.length = 3 ∧
    (moveSelection hostNotes (shownAt 7) Direction.left).state.currentIndex = 0 ∧
    (moveSelection hostNotes (shownAt 7) Direction.right).state.currentIndex = 2 :=
  ⟨by decide, rfl,
   (moveSelection_stale_index hostNotes (shownAt 7) hostNotesTabs Direction.left (by decide)
      (by decide) rfl (by decide)).2.2.1,
   (moveSelection_stale_index hostNotes (shownAt 7) hostNotesTabs Direction.right (by decide)
      (by decide) rfl (by decide)).2.2.2⟩

/-- C20: `returnToCurrentTabPosition` leaves the selection, and every other field, unchanged
under every host state, because no entry of the catalog it searches belongs to the active
leaf; hence in single-key mode a key-down of `ArrowLeft` with the selection at 0 leaves the
selection at 0. -/
theorem returnToCurrentTabPosition_noop (h : Host) (s : Switcher) :
    (returnToCurrentTabPosition h s).state = s ∧
    (∀ tabs, getTabs h = some tabs → ∀ t ∈ tabs, some t.leaf ≠ h.activeLeaf) ∧
    (∀ (cfg : Settings) (event : KeyEvent), cfg.useComboKeys = false →
      event.key = "ArrowLeft" → s.currentIndex = 0 →
      (handleKeyDown cfg h s event).state.currentIndex = 0) := by
  refine ⟨returnToCurrentTabPosition_state h s, ?_, ?_⟩
  · intro tabs hret t ht
    exact (mem_candidates (mem_getTabs hret ht)).2.1
  · intro cfg event hmode hkey hidx
    have h1 : (updateComboKeyState s event true).currentIndex = 0 := hidx
    unfold handleKeyDown
    simp only [hmode, Bool.false_eq_true, if_false]
    split
    · rw [thenPrevent_state]
      split
      · rw [showTabBar_state]
        split
        · exact h1
        · rfl
      · exact h1
    · split
      · rw [thenPrevent_state, returnToCurrentTabPosition_state]
        exact h1
      · exact h1

/-- Witness for C20: three catalog entries, the overlay shown with the selection at 0;
`ArrowLeft` leaves it at 0 instead of wrapping to 2. -/
theorem returnToCurrentTabPosition_noop_witness :
    getTabs hostNotes = some hostNotesTabs ∧
    (handleKeyDown (singleKeySettings "Alt" false) hostNotes (shownAt 0)
      (plainEvent "ArrowLeft" [Modifier.alt])).state.currentIndex = 0 :=
  ⟨by decide,
   (returnToCurrentTabPosition_noop hostNotes (shownAt 0)).2.2 (singleKeySettings "Alt" false)
     (plainEvent "ArrowLeft" [Modifier.alt]) rfl rfl rfl⟩

/-- C21, as amended: the comparator of the sort is transitive, in the sense that
`cmp(a, b) <= 0` and `cmp(b, c) <= 0` give `cmp(a, c) <= 0`, on every three descriptors of which
one has its `path` in the recency list, or which are all of type `file`, or of which at most
one is of type `file`, given that `localeCompare` is transitive itself. -/
theorem compareTabs_trans (h : Host) (recent : List String) (a b c : TabInfo)
    (hloc : ∀ x y z : String, h.localeCompare x y ≤ 0 → h.localeCompare y z ≤ 0 →
      h.localeCompare x z ≤ 0)
    (hmix : a.path ∈ recent ∨ b.path ∈ recent ∨ c.path ∈ recent ∨
      (a.type = TabType.file ∧ b.type = TabType.file ∧ c.type = TabType.file) ∨
      (a.type ≠ TabType.file ∧ b.type ≠ TabType.file) ∨
      (a.type ≠ TabType.file ∧ c.type ≠ TabType.file) ∨
      (b.type ≠ TabType.file ∧ c.type ≠ TabType.file))
    (hab : compareTabs h recent a b ≤ 0) (hbc : compareTabs h recent b c ≤ 0) :
    compareTabs h recent a c ≤ 0 := by
  by_cases ha : a.path ∈ recent
  · by_cases hc : c.path ∈ recent
    · by_cases hb : b.path ∈ recent
      · rw [compareTabs_in_in h recent a b ha hb] at hab
        rw [compareTabs_in_in h recent b c hb hc] at hbc
        rw [compareTabs_in_in h recent a c ha hc]
        omega
      · rw [compareTabs_out_in h recent b c hb hc] at hbc
        omega
    · rw [compareTabs_in_out h recent a c ha hc]
      omega
  · by_cases hb : b.path ∈ recent
    · rw [compareTabs_out_in h recent a b ha hb] at hab
      omega
    · by_cases hc : c.path ∈ recent
      · rw [compareTabs_out_in h recent b c hb hc] at hbc
        omega
      · rw [compareTabs_out_out h recent a b ha hb] at hab
        rw [compareTabs_out_out h recent b c hb hc] at hbc
        rw [compareTabs_out_out h recent a c ha hc]
        rcases hmix with h1 | h1 | h1 | ⟨fa, fb, fc⟩ | ⟨na, nb⟩ | ⟨na, nc⟩ | ⟨nb, nc⟩
        · exact absurd h1 ha
        · exact absurd h1 hb
        · exact absurd h1 hc
        · rw [if_pos ⟨fa, fb⟩] at hab
          rw [if_pos ⟨fb, fc⟩] at hbc
          rw [if_pos ⟨fa, fc⟩]
          omega
        · rw [if_neg (fun hh => na hh.1)] at hab
          rw [if_neg (fun hh => nb hh.1)] at hbc
          rw [if_neg (fun hh => na hh.1)]
          exact hloc _ _ _ hab hbc
        · rw [if_neg (fun hh => na hh.1)] at hab
          rw [if_neg (fun hh => nc hh.2)] at hbc
          rw [if_neg (fun hh => na hh.1)]
          exact hloc _ _ _ hab hbc
        · rw [if_neg (fun hh => nb hh.2)] at hab
          rw [if_neg (fun hh => nb hh.1)] at hbc
          rw [if_neg (fun hh => nc hh.2)]
          exact hloc _ _ _ hab hbc

/-- Witness for the amended C21: three pages-and-notes of which one note is in the recency
list, under the code-point `localeCompare` of the example hosts. -/
theorem compareTabs_trans_witness :
    compareTabs hostMixA ["c.md"] (noteNew 2) (noteOld 0) ≤ 0 ∧
    compareTabs hostMixA ["c.md"] (noteOld 0) (pageB 1) ≤ 0 ∧
    compareTabs hostMixA ["c.md"] (noteNew 2) (pageB 1) ≤ 0 :=
  ⟨by decide, by decide,
   compareTabs_trans hostMixA ["c.md"] (noteNew 2) (noteOld 0) (pageB 1)
     (fun x y z => compareChars_trans x.data y.data z.data)
     (Or.inl (by decide)) (by decide) (by decide)⟩

/-- C21 as stated fails: with no recently used file, the older note `a` does not come after
the page `b` (compared by title), the page `b` does not come after the newer note `c`
(compared by title), yet the note `a` comes after the note `c` (compared by modification
time). -/
theorem compareTabs_trans_counterexample :
    (noteOld 0).type = TabType.file ∧ (pageB 1).type = TabType.web ∧
    (noteNew 2).type = TabType.file ∧
    compareTabs hostMixA [] (noteOld 0) (pageB 1) ≤ 0 ∧
    compareTabs hostMixA [] (pageB 1) (noteNew 2) ≤ 0 ∧
    ¬ compareTabs hostMixA [] (noteOld 0) (noteNew 2) ≤ 0 := by
  decide

/-- C22, evaluated on the code: in single-key mode the switch key is pressed, then released
while a leaf of the host raises from `getDisplayText()`; the listener has cleared `keyPressed`
before `switchToSelectedTab` raises, so the overlay is never hidden, and after the next
listener, which returns, the overlay is visible with the latch not set.  The same sequence in
combo mode leaves the overlay visible with `comboKeysActive` not set. -/
theorem latch_lost_on_raise :
    getTabs hostFaultyTitle = none ∧
    (handleKeyUp (singleKeySettings "Alt" false) hostFaultyTitle
      (handleKeyDown (singleKeySettings "Alt" false) hostNotes Switcher.initial
        (modifierEvent Modifier.alt [Modifier.alt])).state
      (modifierEvent Modifier.alt [])).raised = true ∧
    (handleKeyDown (singleKeySettings "Alt" false) hostNotes
      (handleKeyUp (singleKeySettings "Alt" false) hostFaultyTitle
        (handleKeyDown (singleKeySettings "Alt" false) hostNotes Switcher.initial
          (modifierEvent Modifier.alt [Modifier.alt])).state
        (modifierEvent Modifier.alt [])).state
      (plainEvent "a" [])).raised = false ∧
    (runEvents (singleKeySettings "Alt" false) Switcher.initial
      traceRaiseOnRelease).isVisible = true ∧
    latch (singleKeySettings "Alt" false)
      (runEvents (singleKeySettings "Alt" false) Switcher.initial traceRaiseOnRelease) = false ∧
    (runEvents (comboSettings [Modifier.ctrl, Modifier.alt]) Switcher.initial
      traceComboRaiseOnRelease).isVisible = true ∧
    latch (comboSettings [Modifier.ctrl, Modifier.alt])
      (runEvents (comboSettings [Modifier.ctrl, Modifier.alt]) Switcher.initial
        traceComboRaiseOnRelease) = false := by
  decide

end TabSwitch
